import Mathlib

/-!
# ctx: kubeconfig codec and context store

A shallow embedding of `internal/kubeconfig/kubeconfig.go` and of the command
layer in `main.go`.

Go strings are modelled as lists of Unicode code points (`Str`); the file is
taken to be valid UTF-8 text, which is what `strings.TrimSpace` decodes it as.
`strings.Split`, `strings.TrimSpace`, `strings.HasPrefix` and
`strings.TrimPrefix` follow the documented behaviour of the Go standard
library.  A Go function returning `(T, error)` returns `Except Str T`; a
method with a pointer receiver returns the receiver's new value together with
the optional error.
-/

set_option linter.dupNamespace false

namespace Kubeconfig

/-- A Go string, as the list of its code points. -/
abbrev Str := List Char

/-! ## Data model -/

/-- The anonymous struct nested in `Context`. -/
structure ContextDetails where
  Cluster : Str := []
  User : Str := []
  Namespace : Str := []
  deriving DecidableEq, Repr

/-- Go `type Context struct`. -/
structure Context where
  Name : Str := []
  Context : ContextDetails := {}
  deriving DecidableEq, Repr

/-- The anonymous struct nested in `Cluster`. -/
structure ClusterDetails where
  Server : Str := []
  CertificateAuthority : Str := []
  CertificateAuthorityData : Str := []
  deriving DecidableEq, Repr

/-- Go `type Cluster struct`. -/
structure Cluster where
  Name : Str := []
  Cluster : ClusterDetails := {}
  deriving DecidableEq, Repr

/-- The anonymous struct nested in `User`. -/
structure UserDetails where
  Username : Str := []
  Password : Str := []
  Token : Str := []
  ClientCertificate : Str := []
  ClientCertificateData : Str := []
  ClientKey : Str := []
  ClientKeyData : Str := []
  deriving DecidableEq, Repr

/-- Go `type User struct`. -/
structure User where
  Name : Str := []
  User : UserDetails := {}
  deriving DecidableEq, Repr

/-- Go `type Config struct`.  `Preferences` is a `map[string]interface{}` whose
values are never inspected (only `len` is taken): it is modelled by the list of
its keys, the nil map being the empty list.  The default value of every field
is Go's zero value. -/
structure Config where
  APIVersion : Str := []
  Kind : Str := []
  Preferences : List Str := []
  CurrentContext : Str := []
  Contexts : List Context := []
  Clusters : List Cluster := []
  Users : List User := []
  deriving DecidableEq, Repr

/-- Equality of the results of a fallible function is decidable. -/
instance exceptDecEq {ε α : Type} [DecidableEq ε] [DecidableEq α] : DecidableEq (Except ε α)
  | .ok a, .ok b => if h : a = b then isTrue (by rw [h]) else isFalse (by simpa using h)
  | .error a, .error b => if h : a = b then isTrue (by rw [h]) else isFalse (by simpa using h)
  | .ok _, .error _ => isFalse (by simp)
  | .error _, .ok _ => isFalse (by simp)

/-! ## The string functions of the Go standard library that the code calls -/

/-- Go `unicode.IsSpace`: the code points with the White_Space property. -/
def isSpace (c : Char) : Bool :=
  let n := c.toNat
  (0x09 ≤ n && n ≤ 0x0d) || n == 0x20 || n == 0x85 || n == 0xa0 || n == 0x1680 ||
  (0x2000 ≤ n && n ≤ 0x200a) || n == 0x2028 || n == 0x2029 || n == 0x202f ||
  n == 0x205f || n == 0x3000

/-- Go `strings.TrimSpace`: leading and trailing white space removed. -/
def TrimSpace (s : Str) : Str :=
  (s.dropWhile isSpace).rdropWhile isSpace

/-- Go `strings.HasPrefix`. -/
def HasPrefix (s pre : Str) : Bool :=
  pre.isPrefixOf s

/-- Go `strings.TrimPrefix`: `s` without the leading `pre`, or `s` itself when
`s` does not start with `pre`. -/
def TrimPrefix (s pre : Str) : Str :=
  if HasPrefix s pre then s.drop pre.length else s

/-- Go `strings.Split(s, "\n")`: the pieces of `s` between newlines; always at
least one piece. -/
def splitLines : Str → List Str
  | [] => [[]]
  | c :: cs =>
    if c = '\n' then [] :: splitLines cs
    else
      match splitLines cs with
      | [] => [[c]]
      | l :: ls => (c :: l) :: ls

/-! ## `parseKubeConfig` -/

/-- The inner loop of `parseKubeConfig` (`for j := i + 1; j < len(lines); j++`),
run over the lines `lines[i+1:]`: it stops at the next `- name:` line and
otherwise assigns the fields of `ctx` from the lines it recognises. -/
def parseKubeConfig.details : List Str → Context → Context
  | [], ctx => ctx
  | l :: ls, ctx =>
    let detailLine := TrimSpace l
    if HasPrefix detailLine "- name:".toList then ctx
    else if HasPrefix detailLine "cluster:".toList then
      parseKubeConfig.details ls
        { ctx with Context := { ctx.Context with
            Cluster := TrimSpace (TrimPrefix detailLine "cluster:".toList) } }
    else if HasPrefix detailLine "user:".toList then
      parseKubeConfig.details ls
        { ctx with Context := { ctx.Context with
            User := TrimSpace (TrimPrefix detailLine "user:".toList) } }
    else if HasPrefix detailLine "namespace:".toList then
      parseKubeConfig.details ls
        { ctx with Context := { ctx.Context with
            Namespace := TrimSpace (TrimPrefix detailLine "namespace:".toList) } }
    else parseKubeConfig.details ls ctx

/-- The local variables of `parseKubeConfig` that live across iterations of its
outer loop. -/
structure ParseState where
  config : Config := {}
  contextStart : Int := -1
  currentContext : Str := []
  deriving DecidableEq, Repr

/-- The outer loop of `parseKubeConfig` (`for i, line := range lines`), at index
`i` with `lines[i:]` still to read. -/
def parseKubeConfig.loop : Nat → List Str → ParseState → ParseState
  | _, [], st => st
  | i, line :: rest, st =>
    let trimmed := TrimSpace line
    if HasPrefix trimmed "current-context:".toList then
      let currentContext := TrimSpace (TrimPrefix trimmed "current-context:".toList)
      parseKubeConfig.loop (i + 1) rest
        { st with currentContext := currentContext,
                  config := { st.config with CurrentContext := currentContext } }
    else if HasPrefix trimmed "contexts:".toList then
      parseKubeConfig.loop (i + 1) rest { st with contextStart := (i : Int) + 1 }
    else if HasPrefix trimmed "- name:".toList && st.contextStart != -1 then
      let contextName := TrimSpace (TrimPrefix trimmed "- name:".toList)
      let ctx := parseKubeConfig.details rest { Name := contextName }
      parseKubeConfig.loop (i + 1) rest
        { st with config := { st.config with Contexts := st.config.Contexts ++ [ctx] } }
    else parseKubeConfig.loop (i + 1) rest st

/-- The defaults `parseKubeConfig` sets after its loop. -/
def parseKubeConfig.defaults (config : Config) : Config :=
  let config := if config.APIVersion = [] then { config with APIVersion := "v1".toList } else config
  if config.Kind = [] then { config with Kind := "Config".toList } else config

/-- Go `parseKubeConfig`. -/
def parseKubeConfig (data : Str) : Except Str Config :=
  let lines := splitLines data
  let st := parseKubeConfig.loop 0 lines {}
  .ok (parseKubeConfig.defaults st.config)

/-! ## `serializeKubeConfig` -/

/-- The loop `for _, ctx := range config.Contexts` of `serializeKubeConfig`,
on the builder's content. -/
def serializeKubeConfig.contexts : Str → List Context → Str
  | b, [] => b
  | b, ctx :: rest =>
    let b := b ++ ("  - name: ".toList ++ ctx.Name ++ "\n".toList)
    let b := b ++ "    context:\n".toList
    let b := b ++ ("      cluster: ".toList ++ ctx.Context.Cluster ++ "\n".toList)
    let b := b ++ ("      user: ".toList ++ ctx.Context.User ++ "\n".toList)
    let b := if ctx.Context.Namespace ≠ [] then
        b ++ ("      namespace: ".toList ++ ctx.Context.Namespace ++ "\n".toList)
      else b
    serializeKubeConfig.contexts b rest

/-- The loop `for _, cluster := range config.Clusters`. -/
def serializeKubeConfig.clusters : Str → List Cluster → Str
  | b, [] => b
  | b, cluster :: rest =>
    let b := b ++ ("  - name: ".toList ++ cluster.Name ++ "\n".toList)
    let b := b ++ "    cluster:\n".toList
    let b := b ++ ("      server: ".toList ++ cluster.Cluster.Server ++ "\n".toList)
    serializeKubeConfig.clusters b rest

/-- The loop `for _, user := range config.Users`. -/
def serializeKubeConfig.users : Str → List User → Str
  | b, [] => b
  | b, user :: rest =>
    let b := b ++ ("  - name: ".toList ++ user.Name ++ "\n".toList)
    let b := b ++ "    user: {}\n".toList
    serializeKubeConfig.users b rest

/-- Go `serializeKubeConfig`; `b` is the content of the `strings.Builder`. -/
def serializeKubeConfig (config : Config) : Except Str Str :=
  let b : Str := []
  let b := b ++ ("apiVersion: ".toList ++ config.APIVersion ++ "\n".toList)
  let b := b ++ ("kind: ".toList ++ config.Kind ++ "\n".toList)
  let b := b ++ ("current-context: ".toList ++ config.CurrentContext ++ "\n".toList)
  let b := if config.Preferences.length > 0 then b ++ "preferences: {}\n".toList else b
  let b := b ++ "contexts:\n".toList
  let b := serializeKubeConfig.contexts b config.Contexts
  let b := if config.Clusters.length > 0 then
      serializeKubeConfig.clusters (b ++ "clusters:\n".toList) config.Clusters
    else b
  let b := if config.Users.length > 0 then
      serializeKubeConfig.users (b ++ "users:\n".toList) config.Users
    else b
  .ok b

/-! ## The context store -/

/-- Go `(*Config).GetContexts`. -/
def Config.GetContexts (c : Config) : List Context :=
  c.Contexts

/-- The loop of `ContextExists` over the contexts still to visit. -/
def Config.ContextExists.loop (name : Str) : List Context → Bool
  | [] => false
  | ctx :: rest => if ctx.Name = name then true else Config.ContextExists.loop name rest

/-- Go `(*Config).ContextExists`. -/
def Config.ContextExists (c : Config) (name : Str) : Bool :=
  Config.ContextExists.loop name c.Contexts

/-- The loop of `SetCurrentContext`: the value of `found` and the content of the
slice after the loop. -/
def Config.SetCurrentContext.loop (name namespace_ : Str) : List Context → Bool × List Context
  | [] => (false, [])
  | ctx :: rest =>
    if ctx.Name = name then
      (true, { ctx with Context := { ctx.Context with Namespace := namespace_ } } :: rest)
    else
      let r := Config.SetCurrentContext.loop name namespace_ rest
      (r.1, ctx :: r.2)

/-- Go `fmt.Errorf("context '%s' not found", name)`. -/
def notFoundError (name : Str) : Str :=
  "context '".toList ++ name ++ "' not found".toList

/-- Go `(*Config).SetCurrentContext`: the receiver after the call and the error
returned. -/
def Config.SetCurrentContext (c : Config) (name namespace_ : Str) : Config × Option Str :=
  let r := Config.SetCurrentContext.loop name namespace_ c.Contexts
  let c := { c with Contexts := r.2 }
  if !r.1 then (c, some (notFoundError name))
  else ({ c with CurrentContext := name }, none)

/-- The loop of `RemoveContext` at index `i`, with `all[i:]` still to visit:
the new slice `append(all[:i], all[i+1:]...)` at the first match. -/
def Config.RemoveContext.loop (name : Str) (all : List Context) :
    Nat → List Context → Option (List Context)
  | _, [] => none
  | i, ctx :: rest =>
    if ctx.Name = name then some (all.take i ++ all.drop (i + 1))
    else Config.RemoveContext.loop name all (i + 1) rest

/-- Go `(*Config).RemoveContext`: the receiver after the call and the error
returned. -/
def Config.RemoveContext (c : Config) (name : Str) : Config × Option Str :=
  match Config.RemoveContext.loop name c.Contexts 0 c.Contexts with
  | some cs => ({ c with Contexts := cs }, none)
  | none => (c, some (notFoundError name))

/-- The loop of `CurrentNamespace`. -/
def Config.CurrentNamespace.loop (current : Str) : List Context → Str
  | [] => []
  | ctx :: rest =>
    if ctx.Name = current then ctx.Context.Namespace
    else Config.CurrentNamespace.loop current rest

/-- Go `(*Config).CurrentNamespace`. -/
def Config.CurrentNamespace (c : Config) : Str :=
  Config.CurrentNamespace.loop c.CurrentContext c.Contexts

/-! ## `Load`, `Save` and the `use` command

The kubeconfig file is the only part of the file system that is modelled: its
content, or `none` when it cannot be read.  Creating the directory and writing
the file are taken to succeed.  The messages printed, and the operating
system's text inside the read error, are not modelled. -/

/-- Go `Load`, on the content of the kubeconfig file. -/
def Load (file : Option Str) : Except Str Config :=
  match file with
  | none => .error "failed to read kubeconfig file".toList
  | some data =>
    match parseKubeConfig data with
    | .error err => .error ("failed to parse kubeconfig: ".toList ++ err)
    | .ok config => .ok config

/-- Go `(*Config).Save`: the bytes written to the kubeconfig file. -/
def Config.Save (c : Config) : Except Str Str :=
  match serializeKubeConfig c with
  | .error err => .error ("failed to marshal config: ".toList ++ err)
  | .ok data => .ok data

/-- Go `runUse`: the content of the kubeconfig file after the command and the
exit status of the process (`os.Exit(1)` on an error, 0 on a normal return, 2
for the run-time panic of `args[0]` on an empty `args`, which `main` never
passes). -/
def runUse (file : Option Str) (args : List Str) : Option Str × Nat :=
  match Load file with
  | .error _ => (file, 1)
  | .ok kc =>
    match args with
    | [] => (file, 2)
    | contextName :: more =>
      let namespace_ : Str :=
        match more with
        | [] => []
        | ns :: _ => ns
      if !kc.ContextExists contextName then (file, 1)
      else
        let r := kc.SetCurrentContext contextName namespace_
        match r.2 with
        | some _ => (file, 1)
        | none =>
          match r.1.Save with
          | .error _ => (file, 1)
          | .ok data => (some data, 0)

/-! ## The `ls` and `rm` commands -/

/-- What a command leaves behind: the Config in memory when it ends (`none`
when `Load` failed), the bytes `Save` wrote to the kubeconfig file (`none` when
`Save` was not called), what it printed, and the exit status of the process
(`os.Exit(1)` on an error, 0 on a normal return). -/
structure Outcome where
  kc : Option Config := none
  written : Option Str := none
  stdout : Str := []
  stderr : Str := []
  exit : Nat := 0
  deriving DecidableEq, Repr

/-- The loop `for _, ctx := range contexts` of `runList`, on the text printed
so far. -/
def runList.loop (kc : Config) (currentContext : Str) : Str → List Context → Str
  | out, [] => out
  | out, ctx :: rest =>
    let pfx : Str := if ctx.Name = currentContext then "*".toList else " ".toList
    let out := out ++ (pfx ++ " ".toList ++ ctx.Name)
    let out :=
      if ctx.Name = currentContext ∧ kc.CurrentNamespace ≠ [] then
        out ++ (" (namespace: ".toList ++ kc.CurrentNamespace ++ ")".toList)
      else out
    let out := out ++ "\n".toList
    runList.loop kc currentContext out rest

/-- Go `runList`. -/
def runList (file : Option Str) : Outcome :=
  match Load file with
  | .error err => { stderr := "Error: ".toList ++ err ++ "\n".toList, exit := 1 }
  | .ok kc =>
    let currentContext := kc.CurrentContext
    let contexts := kc.GetContexts
    if contexts.length = 0 then
      { kc := some kc, stdout := "No contexts found\n".toList }
    else
      { kc := some kc, stdout := runList.loop kc currentContext [] contexts }

/-- Go `runRemove`. -/
def runRemove (file : Option Str) (contextName : Str) : Outcome :=
  match Load file with
  | .error err => { stderr := "Error: ".toList ++ err ++ "\n".toList, exit := 1 }
  | .ok kc =>
    if !kc.ContextExists contextName then
      { kc := some kc,
        stderr := "Error: context '".toList ++ contextName ++ "' does not exist\n".toList,
        exit := 1 }
    else if kc.CurrentContext = contextName then
      { kc := some kc,
        stderr := "Error: cannot remove currently active context '".toList ++ contextName ++
          "'\n".toList,
        exit := 1 }
    else
      let r := kc.RemoveContext contextName
      match r.2 with
      | some err =>
        { kc := some r.1, stderr := "Error: ".toList ++ err ++ "\n".toList, exit := 1 }
      | none =>
        match r.1.Save with
        | .error err =>
          { kc := some r.1, stderr := "Error: ".toList ++ err ++ "\n".toList, exit := 1 }
        | .ok data =>
          { kc := some r.1, written := some data,
            stdout := "Removed context '".toList ++ contextName ++ "'\n".toList }

/-! ## Examples -/

/-- The document of the end-to-end scenario: contexts `dev` and `prod`, current
`dev`. -/
def devProdDoc : Str :=
  "current-context: dev\ncontexts:\n- name: dev\n  context:\n    cluster: c1\n    user: u1\n- name: prod\n  context:\n    cluster: c2\n    user: u2\n".toList

/-- A Config with two contexts, `dev` (current) and `prod`. -/
def devProdConfig : Config :=
  { APIVersion := "v1".toList, Kind := "Config".toList, CurrentContext := "dev".toList,
    Contexts := [
      { Name := "dev".toList, Context := { Cluster := "c1".toList, User := "u1".toList } },
      { Name := "prod".toList, Context := { Cluster := "c2".toList, User := "u2".toList } }] }

/-- A Config in which two contexts share the name `a`. -/
def dupConfig : Config :=
  { APIVersion := "v1".toList, Kind := "Config".toList,
    Contexts := [
      { Name := "a".toList, Context := { Cluster := "c1".toList } },
      { Name := "a".toList, Context := { Cluster := "c2".toList } }] }

/-- A document whose only context has no name but has a namespace. -/
def emptyNameDoc : Str :=
  "contexts:\n- name:\n  namespace: x\n".toList

/-- The Config that `parseKubeConfig` returns on `emptyNameDoc`. -/
def emptyNameConfig : Config :=
  { APIVersion := "v1".toList, Kind := "Config".toList,
    Contexts := [{ Name := [], Context := { Namespace := "x".toList } }] }

/-! ## Definitions used to state the properties -/

/-- The text made of the given lines, each one ended by a newline. -/
def unlines : List Str → Str
  | [] => []
  | l :: ls => l ++ '\n' :: unlines ls

/-- The lines `serializeKubeConfig` writes for one context. -/
def contextLines (ctx : Context) : List Str :=
  ["  - name: ".toList ++ ctx.Name, "    context:".toList,
   "      cluster: ".toList ++ ctx.Context.Cluster,
   "      user: ".toList ++ ctx.Context.User] ++
  (if ctx.Context.Namespace ≠ [] then ["      namespace: ".toList ++ ctx.Context.Namespace]
   else [])

/-- The lines of the `contexts:` block, its first line apart. -/
def contextsLines : List Context → List Str
  | [] => []
  | ctx :: rest => contextLines ctx ++ contextsLines rest

/-- The lines `serializeKubeConfig` writes for one cluster. -/
def clusterLines (cluster : Cluster) : List Str :=
  ["  - name: ".toList ++ cluster.Name, "    cluster:".toList,
   "      server: ".toList ++ cluster.Cluster.Server]

/-- The lines of the `clusters:` block, its first line apart. -/
def clustersLines : List Cluster → List Str
  | [] => []
  | cluster :: rest => clusterLines cluster ++ clustersLines rest

/-- The lines `serializeKubeConfig` writes for one user. -/
def userLines (user : User) : List Str :=
  ["  - name: ".toList ++ user.Name, "    user: {}".toList]

/-- The lines of the `users:` block, its first line apart. -/
def usersLines : List User → List Str
  | [] => []
  | user :: rest => userLines user ++ usersLines rest

/-- The lines before the contexts. -/
def headerLines (config : Config) : List Str :=
  ["apiVersion: ".toList ++ config.APIVersion, "kind: ".toList ++ config.Kind,
   "current-context: ".toList ++ config.CurrentContext] ++
  (if config.Preferences.length > 0 then ["preferences: {}".toList] else []) ++
  ["contexts:".toList]

/-- The lines after the contexts. -/
def trailerLines (config : Config) : List Str :=
  (if config.Clusters.length > 0 then "clusters:".toList :: clustersLines config.Clusters
   else []) ++
  (if config.Users.length > 0 then "users:".toList :: usersLines config.Users else [])

/-- A context with its four strings trimmed: what the decoder reads back. -/
def trimContext (ctx : Context) : Context :=
  { Name := TrimSpace ctx.Name,
    Context := { Cluster := TrimSpace ctx.Context.Cluster,
                 User := TrimSpace ctx.Context.User,
                 Namespace := TrimSpace ctx.Context.Namespace } }

/-- A string the codec reads back as it is: without leading and trailing white
space and without a newline. -/
def Good (s : Str) : Prop :=
  TrimSpace s = s ∧ '\n' ∉ s

/-- A context whose four strings are read back as they are. -/
def GoodContext (ctx : Context) : Prop :=
  Good ctx.Name ∧ Good ctx.Context.Cluster ∧ Good ctx.Context.User ∧ Good ctx.Context.Namespace

/-- The Config of `devProdConfig` with no current context and a namespace on
`dev`. -/
def noCurrentConfig : Config :=
  { devProdConfig with
    CurrentContext := [],
    Contexts := [
      { Name := "dev".toList, Context := { Cluster := "c1".toList, Namespace := "ns1".toList } },
      { Name := "prod".toList, Context := { Cluster := "c2".toList } }] }

/-- A cluster without the fields the encoder does not write. -/
def eraseClusterSecrets (cluster : Cluster) : Cluster :=
  { cluster with
    Cluster := { cluster.Cluster with CertificateAuthority := [], CertificateAuthorityData := [] } }

/-- A user without the fields the encoder does not write: all the auth fields. -/
def eraseUserSecrets (user : User) : User :=
  { Name := user.Name, User := {} }

/-- A Config without the certificate-authority fields of its clusters and the
auth fields of its users: two Configs differ only in those fields when they
are equal after `eraseSecrets`. -/
def eraseSecrets (c : Config) : Config :=
  { c with Clusters := c.Clusters.map eraseClusterSecrets,
           Users := c.Users.map eraseUserSecrets }

/-- Two Configs that differ only in a cluster's certificate-authority data and
in a user's token and password. -/
def secretConfigA : Config :=
  { APIVersion := "v1".toList, Kind := "Config".toList, CurrentContext := "dev".toList,
    Contexts := [{ Name := "dev".toList, Context := { Cluster := "c1".toList, User := "u1".toList } }],
    Clusters := [{ Name := "c1".toList,
                   Cluster := { Server := "https://h".toList,
                                CertificateAuthorityData := "AAAA".toList } }],
    Users := [{ Name := "u1".toList, User := { Token := "t1".toList } }] }

/-- See `secretConfigA`. -/
def secretConfigB : Config :=
  { APIVersion := "v1".toList, Kind := "Config".toList, CurrentContext := "dev".toList,
    Contexts := [{ Name := "dev".toList, Context := { Cluster := "c1".toList, User := "u1".toList } }],
    Clusters := [{ Name := "c1".toList,
                   Cluster := { Server := "https://h".toList,
                                CertificateAuthorityData := "BBBB".toList } }],
    Users := [{ Name := "u1".toList,
                User := { Token := "t2".toList, Password := "pw".toList } }] }

/-- The trimmed text of `line` starts with `key`. -/
def hasKey (key line : Str) : Bool :=
  HasPrefix (TrimSpace line) key

/-- The trimmed remainder of `line` after `key`. -/
def fieldValue (key line : Str) : Str :=
  TrimSpace (TrimPrefix (TrimSpace line) key)

/-- The lines that come after the first line whose trimmed text starts with
`contexts:`. -/
def afterContexts (ls : List Str) : List Str :=
  (ls.dropWhile (fun l => !hasKey "contexts:".toList l)).drop 1

/-- The lines whose trimmed text starts with `- name:` and that come after a
line whose trimmed text starts with `contexts:`, in file order. -/
def nameLines (ls : List Str) : List Str :=
  (afterContexts ls).filter (hasKey "- name:".toList)

/-- The lines of `ls` whose trimmed text starts with `- name:`, each one with
the lines that follow it. -/
def nameLinesWithRest : List Str → List (Str × List Str)
  | [] => []
  | l :: rest =>
    if hasKey "- name:".toList l then (l, rest) :: nameLinesWithRest rest
    else nameLinesWithRest rest

/-- The lines that follow a `- name:` line, up to the next `- name:` line or
the end of the input. -/
def detailRegion (ls : List Str) : List Str :=
  ls.takeWhile (fun l => !hasKey "- name:".toList l)

/-- The value of the FIRST line of `region` with the key `key`, as C11 states
it; empty when there is no such line. -/
def firstValue (key : Str) (region : List Str) : Str :=
  match region.find? (hasKey key) with
  | some l => fieldValue key l
  | none => []

/-- The value of the LAST line of `region` with the key `key`; `init` when
there is no such line. -/
def lastValue (key : Str) (region : List Str) (init : Str) : Str :=
  match (region.filter (hasKey key)).getLast? with
  | some l => fieldValue key l
  | none => init

/-- The context the decoder builds at a `- name:` line `p.1` followed by the
lines `p.2`. -/
def contextAt (p : Str × List Str) : Context :=
  parseKubeConfig.details p.2 { Name := fieldValue "- name:".toList p.1 }

/-- A document in which a context has two `cluster:` lines. -/
def twoClusterDoc : Str :=
  "contexts:\n- name: a\n  cluster: x\n  cluster: y\n".toList

/-- A document with a `- name:` line before the `contexts:` line. -/
def earlyNameDoc : Str :=
  "- name: early\ncontexts:\n- name: a\n  cluster: x\n- name: b\n".toList

/-- The lines of a listing that carry the `*` marker. -/
def markedLines (out : Str) : List Str :=
  (splitLines out).filter (fun l => decide (l.head? = some '*'))

/-- The line `runList` prints for one context. -/
def listLine (kc : Config) (currentContext : Str) (ctx : Context) : Str :=
  (if ctx.Name = currentContext then "*".toList else " ".toList) ++ " ".toList ++ ctx.Name ++
    (if ctx.Name = currentContext ∧ kc.CurrentNamespace ≠ [] then
      " (namespace: ".toList ++ kc.CurrentNamespace ++ ")".toList
     else [])

/-- A document with two contexts named `dev`, the current one. -/
def dupCurrentDoc : Str :=
  "current-context: dev\ncontexts:\n- name: dev\n- name: dev\n".toList

/-- The context the decoder reads back from the lines of a cluster. -/
def clusterAsContext (cluster : Cluster) : Context :=
  { Name := TrimSpace cluster.Name }

/-- The context the decoder reads back from the lines of a user. -/
def userAsContext (user : User) : Context :=
  { Name := TrimSpace user.Name, Context := { User := "{}".toList } }

/-- None of the strings the encoder writes holds a newline. -/
def NoNewlines (c : Config) : Prop :=
  '\n' ∉ c.APIVersion ∧ '\n' ∉ c.Kind ∧ '\n' ∉ c.CurrentContext ∧
  (∀ x ∈ c.Contexts, '\n' ∉ x.Name ∧ '\n' ∉ x.Context.Cluster ∧
    '\n' ∉ x.Context.User ∧ '\n' ∉ x.Context.Namespace) ∧
  (∀ x ∈ c.Clusters, '\n' ∉ x.Name ∧ '\n' ∉ x.Cluster.Server) ∧
  (∀ x ∈ c.Users, '\n' ∉ x.Name)

/-- `NoNewlines` is decidable. -/
instance decidableNoNewlines (c : Config) : Decidable (NoNewlines c) := by
  unfold NoNewlines
  infer_instance

/-! ## Lemmas on the loops of the context store -/

theorem existsLoop_iff (name : Str) (cs : List Context) :
    Config.ContextExists.loop name cs = true ↔ ∃ ctx ∈ cs, ctx.Name = name := by
  induction cs with
  | nil => simp [Config.ContextExists.loop]
  | cons x xs ih =>
    by_cases h : x.Name = name
    · simp [Config.ContextExists.loop, h]
    · simp [Config.ContextExists.loop, h, ih]

theorem setLoop_found (name ns : Str) (cs : List Context) :
    (Config.SetCurrentContext.loop name ns cs).1 = true ↔ ∃ ctx ∈ cs, ctx.Name = name := by
  induction cs with
  | nil => simp [Config.SetCurrentContext.loop]
  | cons x xs ih =>
    by_cases h : x.Name = name
    · simp [Config.SetCurrentContext.loop, h]
    · simp [Config.SetCurrentContext.loop, h, ih]

theorem setLoop_not_found (name ns : Str) (cs : List Context)
    (h : (Config.SetCurrentContext.loop name ns cs).1 = false) :
    (Config.SetCurrentContext.loop name ns cs).2 = cs := by
  induction cs with
  | nil => simp [Config.SetCurrentContext.loop]
  | cons x xs ih =>
    by_cases hx : x.Name = name
    · simp [Config.SetCurrentContext.loop, hx] at h
    · simp only [Config.SetCurrentContext.loop, hx, if_false] at h ⊢
      rw [ih h]

theorem setLoop_names (name ns : Str) (cs : List Context) :
    (Config.SetCurrentContext.loop name ns cs).2.map (fun x => x.Name) =
      cs.map (fun x => x.Name) := by
  induction cs with
  | nil => simp [Config.SetCurrentContext.loop]
  | cons x xs ih =>
    by_cases hx : x.Name = name
    · simp [Config.SetCurrentContext.loop, hx]
    · simp [Config.SetCurrentContext.loop, hx, ih]

theorem setLoop_namespace (name ns : Str) (cs : List Context)
    (h : (Config.SetCurrentContext.loop name ns cs).1 = true) :
    Config.CurrentNamespace.loop name (Config.SetCurrentContext.loop name ns cs).2 = ns := by
  induction cs with
  | nil => simp [Config.SetCurrentContext.loop] at h
  | cons x xs ih =>
    by_cases hx : x.Name = name
    · simp [Config.SetCurrentContext.loop, Config.CurrentNamespace.loop, hx]
    · simp only [Config.SetCurrentContext.loop, hx, if_false] at h ⊢
      simp [Config.CurrentNamespace.loop, hx, ih h]

/-- The loop of `RemoveContext`, started at index `pre.length` on `pre ++ cs`
with no match in `pre`: it fails exactly when `cs` has no match, and otherwise
deletes the first match. -/
theorem removeLoop_spec (name : Str) (cs pre : List Context)
    (hpre : ∀ y ∈ pre, y.Name ≠ name) :
    ((∀ y ∈ cs, y.Name ≠ name) ∧
        Config.RemoveContext.loop name (pre ++ cs) pre.length cs = none) ∨
    (∃ before x after, pre ++ cs = before ++ x :: after ∧ x.Name = name ∧
        (∀ y ∈ before, y.Name ≠ name) ∧
        Config.RemoveContext.loop name (pre ++ cs) pre.length cs = some (before ++ after)) := by
  induction cs generalizing pre with
  | nil => left; simp [Config.RemoveContext.loop]
  | cons x xs ih =>
    by_cases hx : x.Name = name
    · right
      refine ⟨pre, x, xs, rfl, hx, hpre, ?_⟩
      simp [Config.RemoveContext.loop, hx]
    · have hpre2 : ∀ y ∈ pre ++ [x], y.Name ≠ name := by
        intro y hy
        rcases List.mem_append.1 hy with h | h
        · exact hpre y h
        · simp at h; subst h; exact hx
      have := ih (pre ++ [x]) hpre2
      simp only [List.append_assoc, List.singleton_append, List.length_append,
        List.length_singleton] at this
      simp only [Config.RemoveContext.loop, hx, if_false]
      rcases this with ⟨h1, h2⟩ | h
      · left
        refine ⟨?_, h2⟩
        intro y hy
        rcases List.mem_cons.1 hy with h | h
        · subst h; exact hx
        · exact h1 y h
      · right; exact h

/-- What `RemoveContext` does: an error and no change when no context has the
name, otherwise the first context with the name is deleted. -/
theorem removeContext_spec (c : Config) (name : Str) :
    ((∀ y ∈ c.Contexts, y.Name ≠ name) ∧
        c.RemoveContext name = (c, some (notFoundError name))) ∨
    (∃ before x after, c.Contexts = before ++ x :: after ∧ x.Name = name ∧
        (∀ y ∈ before, y.Name ≠ name) ∧
        c.RemoveContext name = ({ c with Contexts := before ++ after }, none)) := by
  have := removeLoop_spec name c.Contexts [] (by simp)
  simp only [List.nil_append, List.length_nil] at this
  rcases this with ⟨h1, h2⟩ | ⟨before, x, after, h1, h2, h3, h4⟩
  · left; exact ⟨h1, by simp [Config.RemoveContext, h2]⟩
  · right; exact ⟨before, x, after, h1, h2, h3, by simp [Config.RemoveContext, h4]⟩

/-! ## Lemmas on the string functions -/

theorem rdropWhile_cons_eq (p : Char → Bool) (a : Char) (l : Str) :
    (a :: l).rdropWhile p =
      if l.rdropWhile p = [] then (if p a then [] else [a]) else a :: l.rdropWhile p := by
  induction l using List.reverseRecOn with
  | nil => simp [List.rdropWhile_singleton]
  | append_singleton l b ih =>
    rw [← List.cons_append, List.rdropWhile_concat, List.rdropWhile_concat]
    by_cases hb : p b = true
    · simp only [hb, if_true]; exact ih
    · simp [hb]

/-- Trimming on the left and trimming on the right commute. -/
theorem rdropWhile_dropWhile_comm (p : Char → Bool) (l : Str) :
    (l.dropWhile p).rdropWhile p = (l.rdropWhile p).dropWhile p := by
  induction l with
  | nil => simp
  | cons a l ih =>
    rw [rdropWhile_cons_eq]
    by_cases ha : p a = true
    · rw [List.dropWhile_cons_of_pos ha, ih]
      by_cases hl : l.rdropWhile p = []
      · simp [hl, ha]
      · simp [hl, ha]
    · rw [List.dropWhile_cons_of_neg ha, rdropWhile_cons_eq]
      by_cases hl : l.rdropWhile p = []
      · simp [hl, ha]
      · simp [hl, ha]

theorem TrimSpace_nil : TrimSpace [] = [] := by
  simp [TrimSpace]

/-- `TrimSpace` is idempotent. -/
theorem TrimSpace_idem (s : Str) : TrimSpace (TrimSpace s) = TrimSpace s := by
  unfold TrimSpace
  rw [← rdropWhile_dropWhile_comm, List.dropWhile_idempotent, List.rdropWhile_idempotent]

/-- Trailing white space has no effect on `TrimSpace`. -/
theorem TrimSpace_rdropWhile (s : Str) :
    TrimSpace (s.rdropWhile isSpace) = TrimSpace s := by
  unfold TrimSpace
  rw [← rdropWhile_dropWhile_comm, List.rdropWhile_idempotent]

theorem TrimSpace_cons_space (a : Char) (s : Str) (ha : isSpace a = true) :
    TrimSpace (a :: s) = TrimSpace s := by
  unfold TrimSpace
  rw [List.dropWhile_cons_of_pos ha]

theorem mem_of_mem_TrimSpace {c : Char} {s : Str} (h : c ∈ TrimSpace s) : c ∈ s :=
  (List.dropWhile_suffix isSpace).subset ((List.rdropWhile_prefix isSpace _).subset h)

theorem mem_of_mem_TrimPrefix {c : Char} {s pre : Str} (h : c ∈ TrimPrefix s pre) : c ∈ s := by
  unfold TrimPrefix at h
  split at h
  · exact List.mem_of_mem_drop h
  · exact h

/-- A string without leading and trailing white space is left as it is. -/
theorem TrimSpace_eq_self (s : Str)
    (hhead : ∀ c, s.head? = some c → isSpace c = false)
    (hlast : ∀ c, s.getLast? = some c → isSpace c = false) :
    TrimSpace s = s := by
  unfold TrimSpace
  have h1 : s.dropWhile isSpace = s := by
    cases s with
    | nil => rfl
    | cons a t =>
      have := hhead a rfl
      simp [List.dropWhile_cons, this]
  rw [h1, List.rdropWhile_eq_self_iff]
  intro hl
  have := hlast (s.getLast hl) (List.getLast?_eq_getLast s hl)
  simp [this]

/-- The right trimming of `k ++ x` keeps `k` when `k` ends in a character that
is not white space. -/
theorem rdropWhile_append_keep (k x : Str) (hk : k ≠ [])
    (hlast : isSpace (k.getLast hk) = false) :
    (k ++ x).rdropWhile isSpace = k ++ x.rdropWhile isSpace := by
  induction x using List.reverseRecOn with
  | nil =>
    simp only [List.append_nil, List.rdropWhile_nil]
    rw [List.rdropWhile_eq_self_iff]
    intro hl
    simp [hlast]
  | append_singleton x b ih =>
    rw [← List.append_assoc, List.rdropWhile_concat, List.rdropWhile_concat, ih]
    by_cases hb : isSpace b = true
    · simp [hb]
    · simp [hb]

/-- The trimmed text of a line made of an indentation, a key `k` and a rest
`x`: the key, followed by the rest without its trailing white space. -/
theorem TrimSpace_line (ind k x : Str) (hind : ∀ c ∈ ind, isSpace c = true)
    (hk : k ≠ []) (hhead : isSpace (k.head hk) = false)
    (hlast : isSpace (k.getLast hk) = false) :
    TrimSpace (ind ++ (k ++ x)) = k ++ x.rdropWhile isSpace := by
  unfold TrimSpace
  have h1 : (ind ++ (k ++ x)).dropWhile isSpace = k ++ x := by
    induction ind with
    | nil =>
      cases k with
      | nil => exact absurd rfl hk
      | cons a t =>
        simp only [List.head_cons] at hhead
        simp [List.dropWhile_cons, hhead]
    | cons a t ih =>
      have ha : isSpace a = true := hind a (by simp)
      rw [List.cons_append, List.dropWhile_cons_of_pos ha]
      exact ih (fun c hc => hind c (by simp [hc]))
  rw [h1, rdropWhile_append_keep k x hk hlast]

theorem HasPrefix_append (k x : Str) : HasPrefix (k ++ x) k = true := by
  simp [HasPrefix]

theorem TrimPrefix_append (k x : Str) : TrimPrefix (k ++ x) k = x := by
  simp [TrimPrefix, HasPrefix_append]

/-- A string that starts with `k` does not start with `p` when `k` and `p`
differ within their first `j` characters. -/
theorem HasPrefix_append_false (k x p : Str) (j : Nat) (hj : j ≤ k.length)
    (hjp : j ≤ p.length) (hne : k.take j ≠ p.take j) : HasPrefix (k ++ x) p = false := by
  by_contra h
  have hp : p <+: k ++ x := by
    simpa [HasPrefix] using h
  obtain ⟨t, ht⟩ := hp
  apply hne
  have : (k ++ x).take j = (p ++ t).take j := by rw [ht]
  rw [List.take_append_of_le_length hj, List.take_append_of_le_length hjp] at this
  exact this

/-- The value read from a line `ind ++ k ++ " " ++ v`: the trimmed `v`. -/
theorem TrimSpace_value (k v : Str) (a : Char) (ha : isSpace a = true) :
    TrimSpace (TrimPrefix (k ++ (a :: v).rdropWhile isSpace) k) = TrimSpace v := by
  rw [TrimPrefix_append, TrimSpace_rdropWhile, TrimSpace_cons_space a v ha]

/-! ### Lines -/

theorem unlines_append (a b : List Str) : unlines (a ++ b) = unlines a ++ unlines b := by
  induction a with
  | nil => rfl
  | cons l ls ih => simp [unlines, ih]

theorem splitLines_append_newline (l s : Str) (hl : '\n' ∉ l) :
    splitLines (l ++ '\n' :: s) = l :: splitLines s := by
  induction l with
  | nil => simp [splitLines]
  | cons c t ih =>
    have hc : c ≠ '\n' := fun h => hl (by simp [h])
    have ht : '\n' ∉ t := fun h => hl (by simp [h])
    have e : splitLines (c :: (t ++ '\n' :: s)) =
        match splitLines (t ++ '\n' :: s) with
        | [] => [[c]]
        | l :: ls => (c :: l) :: ls := by
      simp only [splitLines, hc, if_false]
    rw [List.cons_append, e, ih ht]

theorem splitLines_unlines (ls : List Str) (h : ∀ l ∈ ls, '\n' ∉ l) :
    splitLines (unlines ls) = ls ++ [[]] := by
  induction ls with
  | nil => rfl
  | cons l t ih =>
    rw [unlines, splitLines_append_newline l _ (h l (by simp)),
      ih (fun x hx => h x (by simp [hx]))]
    rfl

/-- No piece returned by `splitLines` holds a newline. -/
theorem splitLines_no_newline (s : Str) : ∀ l ∈ splitLines s, '\n' ∉ l := by
  induction s with
  | nil => simp [splitLines]
  | cons c t ih =>
    by_cases hc : c = '\n'
    · intro l hl
      simp only [splitLines, hc, if_true, List.mem_cons] at hl
      rcases hl with h | h
      · subst h; simp
      · exact ih l h
    · simp only [splitLines, hc, if_false]
      cases hs : splitLines t with
      | nil => 
        intro l hl
        simp at hl
        subst hl
        simpa using Ne.symm hc
      | cons x xs =>
        rw [hs] at ih
        intro l hl
        simp only [List.mem_cons] at hl
        rcases hl with h | h
        · subst h
          have := ih x (by simp)
          simp only [List.mem_cons, not_or]
          exact ⟨Ne.symm hc, this⟩
        · exact ih l (by simp [h])

/-! ## The encoder's output, line by line -/

theorem newline_toList : "\n".toList = ['\n'] := rfl

theorem serialize_contexts_eq (b : Str) (cs : List Context) :
    serializeKubeConfig.contexts b cs = b ++ unlines (contextsLines cs) := by
  induction cs generalizing b with
  | nil => simp [serializeKubeConfig.contexts, contextsLines, unlines]
  | cons c cs ih =>
    by_cases hns : c.Context.Namespace = []
    · simp [serializeKubeConfig.contexts, contextsLines, contextLines, ih, hns, unlines,
        newline_toList]
    · simp [serializeKubeConfig.contexts, contextsLines, contextLines, ih, hns, unlines,
        newline_toList]

theorem serialize_clusters_eq (b : Str) (cs : List Cluster) :
    serializeKubeConfig.clusters b cs = b ++ unlines (clustersLines cs) := by
  induction cs generalizing b with
  | nil => simp [serializeKubeConfig.clusters, clustersLines, unlines]
  | cons c cs ih =>
    simp [serializeKubeConfig.clusters, clustersLines, clusterLines, ih, unlines, newline_toList]

theorem serialize_users_eq (b : Str) (us : List User) :
    serializeKubeConfig.users b us = b ++ unlines (usersLines us) := by
  induction us generalizing b with
  | nil => simp [serializeKubeConfig.users, usersLines, unlines]
  | cons u us ih =>
    simp [serializeKubeConfig.users, usersLines, userLines, ih, unlines, newline_toList]

/-- The output of `serializeKubeConfig` is the text made of the header lines,
the lines of the contexts and the trailer lines. -/
theorem serialize_eq (c : Config) :
    serializeKubeConfig c =
      .ok (unlines (headerLines c ++ contextsLines c.Contexts ++ trailerLines c)) := by
  simp only [serializeKubeConfig, serialize_contexts_eq, serialize_clusters_eq,
    serialize_users_eq, unlines_append]
  congr 1
  by_cases hp : c.Preferences.length > 0 <;> by_cases hc : c.Clusters.length > 0 <;>
    by_cases hu : c.Users.length > 0 <;>
    simp [headerLines, trailerLines, hp, hc, hu, unlines, unlines_append, newline_toList]

/-! ## The decoder on single lines -/

/-- The outer loop passes over a line that starts with none of its keys. -/
theorem loop_skip (i : Nat) (line : Str) (rest : List Str) (st : ParseState)
    (h1 : HasPrefix (TrimSpace line) "current-context:".toList = false)
    (h2 : HasPrefix (TrimSpace line) "contexts:".toList = false)
    (h3 : HasPrefix (TrimSpace line) "- name:".toList = false) :
    parseKubeConfig.loop i (line :: rest) st = parseKubeConfig.loop (i + 1) rest st := by
  simp only [parseKubeConfig.loop, h1, h2, h3, Bool.false_eq_true, if_false, Bool.false_and]

/-- The outer loop passes over a line made of an indentation, a key that is
none of the loop's keys, and a rest. -/
theorem loop_skip_key (i : Nat) (ind k x : Str) (rest : List Str) (st : ParseState)
    (hind : ∀ c ∈ ind, isSpace c = true)
    (hk : k ≠ []) (hhead : isSpace (k.head hk) = false)
    (hlast : isSpace (k.getLast hk) = false)
    (j : Nat) (hj : j ≤ k.length) (hj7 : j ≤ 7)
    (h1 : k.take j ≠ "current-context:".toList.take j)
    (h2 : k.take j ≠ "contexts:".toList.take j)
    (h3 : k.take j ≠ "- name:".toList.take j) :
    parseKubeConfig.loop i ((ind ++ (k ++ x)) :: rest) st =
      parseKubeConfig.loop (i + 1) rest st := by
  apply loop_skip
  · rw [TrimSpace_line ind k x hind hk hhead hlast]
    exact HasPrefix_append_false k _ _ j hj (by simp [String.toList]; omega) h1
  · rw [TrimSpace_line ind k x hind hk hhead hlast]
    exact HasPrefix_append_false k _ _ j hj (by simp [String.toList]; omega) h2
  · rw [TrimSpace_line ind k x hind hk hhead hlast]
    exact HasPrefix_append_false k _ _ j hj (by simp [String.toList]; omega) h3

/-- The inner loop passes over a line made of an indentation, a key that is
none of the loop's keys, and a rest. -/
theorem details_skip_key (ind k x : Str) (rest : List Str) (ctx : Context)
    (hind : ∀ c ∈ ind, isSpace c = true)
    (hk : k ≠ []) (hhead : isSpace (k.head hk) = false)
    (hlast : isSpace (k.getLast hk) = false)
    (j : Nat) (hj : j ≤ k.length) (hj5 : j ≤ 5)
    (h1 : k.take j ≠ "- name:".toList.take j)
    (h2 : k.take j ≠ "cluster:".toList.take j)
    (h3 : k.take j ≠ "user:".toList.take j)
    (h4 : k.take j ≠ "namespace:".toList.take j) :
    parseKubeConfig.details ((ind ++ (k ++ x)) :: rest) ctx =
      parseKubeConfig.details rest ctx := by
  have e1 := HasPrefix_append_false k (x.rdropWhile isSpace) _ j hj
    (by simp [String.toList]; omega) h1
  have e2 := HasPrefix_append_false k (x.rdropWhile isSpace) _ j hj
    (by simp [String.toList]; omega) h2
  have e3 := HasPrefix_append_false k (x.rdropWhile isSpace) _ j hj
    (by simp [String.toList]; omega) h3
  have e4 := HasPrefix_append_false k (x.rdropWhile isSpace) _ j hj
    (by simp [String.toList]; omega) h4
  simp only [parseKubeConfig.details, TrimSpace_line ind k x hind hk hhead hlast, e1, e2, e3, e4,
    Bool.false_eq_true, if_false]

/-- The inner loop stops at a `- name:` line. -/
theorem details_stop_name (v : Str) (rest : List Str) (ctx : Context) :
    parseKubeConfig.details (("  - name: ".toList ++ v) :: rest) ctx = ctx := by
  have e : "  - name: ".toList ++ v = "  ".toList ++ ("- name:".toList ++ (' ' :: v)) := rfl
  rw [e, parseKubeConfig.details]
  simp only [TrimSpace_line "  ".toList "- name:".toList (' ' :: v) (by decide) (by decide)
    (by decide) (by decide), HasPrefix_append, if_true]

/-- The inner loop reads the cluster from a `cluster:` line. -/
theorem details_cluster (v : Str) (rest : List Str) (ctx : Context) :
    parseKubeConfig.details (("      cluster: ".toList ++ v) :: rest) ctx =
      parseKubeConfig.details rest
        { ctx with Context := { ctx.Context with Cluster := TrimSpace v } } := by
  have e : "      cluster: ".toList ++ v =
      "      ".toList ++ ("cluster:".toList ++ (' ' :: v)) := rfl
  have e1 := HasPrefix_append_false "cluster:".toList ((' ' :: v).rdropWhile isSpace)
    "- name:".toList 1 (by decide) (by decide) (by decide)
  rw [e, parseKubeConfig.details]
  simp only [TrimSpace_line "      ".toList "cluster:".toList (' ' :: v) (by decide)
    (by decide) (by decide) (by decide), HasPrefix_append, if_true, e1,
    TrimSpace_value _ v ' ' (by decide)]
  simp

/-- The inner loop reads the user from a `user:` line. -/
theorem details_user (v : Str) (rest : List Str) (ctx : Context) :
    parseKubeConfig.details (("      user: ".toList ++ v) :: rest) ctx =
      parseKubeConfig.details rest
        { ctx with Context := { ctx.Context with User := TrimSpace v } } := by
  have e : "      user: ".toList ++ v =
      "      ".toList ++ ("user:".toList ++ (' ' :: v)) := rfl
  have e1 := HasPrefix_append_false "user:".toList ((' ' :: v).rdropWhile isSpace)
    "- name:".toList 1 (by decide) (by decide) (by decide)
  have e2 := HasPrefix_append_false "user:".toList ((' ' :: v).rdropWhile isSpace)
    "cluster:".toList 1 (by decide) (by decide) (by decide)
  rw [e, parseKubeConfig.details]
  simp only [TrimSpace_line "      ".toList "user:".toList (' ' :: v) (by decide)
    (by decide) (by decide) (by decide), HasPrefix_append, if_true, e1, e2,
    TrimSpace_value _ v ' ' (by decide)]
  simp

/-- The inner loop reads the namespace from a `namespace:` line. -/
theorem details_namespace (v : Str) (rest : List Str) (ctx : Context) :
    parseKubeConfig.details (("      namespace: ".toList ++ v) :: rest) ctx =
      parseKubeConfig.details rest
        { ctx with Context := { ctx.Context with Namespace := TrimSpace v } } := by
  have e : "      namespace: ".toList ++ v =
      "      ".toList ++ ("namespace:".toList ++ (' ' :: v)) := rfl
  have e1 := HasPrefix_append_false "namespace:".toList ((' ' :: v).rdropWhile isSpace)
    "- name:".toList 1 (by decide) (by decide) (by decide)
  have e2 := HasPrefix_append_false "namespace:".toList ((' ' :: v).rdropWhile isSpace)
    "cluster:".toList 1 (by decide) (by decide) (by decide)
  have e3 := HasPrefix_append_false "namespace:".toList ((' ' :: v).rdropWhile isSpace)
    "user:".toList 1 (by decide) (by decide) (by decide)
  rw [e, parseKubeConfig.details]
  simp only [TrimSpace_line "      ".toList "namespace:".toList (' ' :: v) (by decide)
    (by decide) (by decide) (by decide), HasPrefix_append, if_true, e1, e2, e3,
    TrimSpace_value _ v ' ' (by decide)]
  simp

/-- The outer loop appends a context at a `- name:` line that comes after a
`contexts:` line. -/
theorem loop_name (i : Nat) (v : Str) (rest : List Str) (st : ParseState)
    (hst : st.contextStart ≠ -1) :
    parseKubeConfig.loop i (("  - name: ".toList ++ v) :: rest) st =
      parseKubeConfig.loop (i + 1) rest
        { st with config := { st.config with Contexts := st.config.Contexts ++
            [parseKubeConfig.details rest { Name := TrimSpace v }] } } := by
  have e : "  - name: ".toList ++ v = "  ".toList ++ ("- name:".toList ++ (' ' :: v)) := rfl
  have e1 := HasPrefix_append_false "- name:".toList ((' ' :: v).rdropWhile isSpace)
    "current-context:".toList 1 (by decide) (by decide) (by decide)
  have e2 := HasPrefix_append_false "- name:".toList ((' ' :: v).rdropWhile isSpace)
    "contexts:".toList 1 (by decide) (by decide) (by decide)
  have e3 : (st.contextStart != -1) = true := by simpa using hst
  rw [e, parseKubeConfig.loop]
  simp only [TrimSpace_line "  ".toList "- name:".toList (' ' :: v) (by decide) (by decide)
    (by decide) (by decide), HasPrefix_append, e1, e2, e3, Bool.false_eq_true, if_false,
    Bool.and_self, if_true, TrimSpace_value _ v ' ' (by decide)]

/-- The outer loop reads `currentContext` from a `current-context:` line. -/
theorem loop_currentContext (i : Nat) (v : Str) (rest : List Str) (st : ParseState) :
    parseKubeConfig.loop i (("current-context: ".toList ++ v) :: rest) st =
      parseKubeConfig.loop (i + 1) rest
        { st with currentContext := TrimSpace v,
                  config := { st.config with CurrentContext := TrimSpace v } } := by
  have e : "current-context: ".toList ++ v =
      [] ++ ("current-context:".toList ++ (' ' :: v)) := rfl
  rw [e, parseKubeConfig.loop]
  simp only [TrimSpace_line [] "current-context:".toList (' ' :: v) (by decide) (by decide)
    (by decide) (by decide), HasPrefix_append, if_true, TrimSpace_value _ v ' ' (by decide)]

/-- The outer loop records the `contexts:` line. -/
theorem loop_contextsKey (i : Nat) (rest : List Str) (st : ParseState) :
    parseKubeConfig.loop i ("contexts:".toList :: rest) st =
      parseKubeConfig.loop (i + 1) rest { st with contextStart := (i : Int) + 1 } := by
  have e1 : HasPrefix (TrimSpace "contexts:".toList) "current-context:".toList = false := by
    decide
  have e2 : HasPrefix (TrimSpace "contexts:".toList) "contexts:".toList = true := by decide
  rw [parseKubeConfig.loop]
  simp only [e1, e2, Bool.false_eq_true, if_false, if_true]

/-- The inner loop on the lines of one context, its `- name:` line apart. -/
theorem details_contextLines (c : Context) (n : Str) (R : List Str)
    (hR : ∀ ctx, parseKubeConfig.details R ctx = ctx) :
    parseKubeConfig.details ((contextLines c).tail ++ R) { Name := n } =
      { Name := n, Context := (trimContext c).Context } := by
  have e0 : ∀ (rest : List Str) (ctx : Context),
      parseKubeConfig.details ("    context:".toList :: rest) ctx =
        parseKubeConfig.details rest ctx := by
    intro rest ctx
    have h1 : HasPrefix (TrimSpace "    context:".toList) "- name:".toList = false := by decide
    have h2 : HasPrefix (TrimSpace "    context:".toList) "cluster:".toList = false := by decide
    have h3 : HasPrefix (TrimSpace "    context:".toList) "user:".toList = false := by decide
    have h4 : HasPrefix (TrimSpace "    context:".toList) "namespace:".toList = false := by
      decide
    rw [parseKubeConfig.details]
    simp only [h1, h2, h3, h4, Bool.false_eq_true, if_false]
  by_cases hns : c.Context.Namespace = []
  · simp only [contextLines, hns, ne_eq, not_true_eq_false, if_false, List.append_nil,
      List.tail_cons, List.cons_append, List.nil_append, e0, details_cluster, details_user,
      hR, trimContext, TrimSpace_nil]
  · simp only [contextLines, hns, ne_eq, not_false_eq_true, if_true, List.tail_cons,
      List.cons_append, List.nil_append, e0, details_cluster, details_user,
      details_namespace, hR, trimContext]

/-- The inner loop stops at once on the lines of further contexts. -/
theorem details_stop_contexts (cs : List Context) (R : List Str)
    (hR : ∀ ctx, parseKubeConfig.details R ctx = ctx) (ctx : Context) :
    parseKubeConfig.details (contextsLines cs ++ R) ctx = ctx := by
  cases cs with
  | nil => exact hR ctx
  | cons c cs =>
    simp only [contextsLines, contextLines, List.cons_append, details_stop_name]

/-- The outer loop on the lines of one context: the context is appended, with
its strings trimmed. -/
theorem loop_contextLines (c : Context) (R : List Str) (i : Nat) (st : ParseState)
    (hst : st.contextStart ≠ -1)
    (hR : ∀ ctx, parseKubeConfig.details R ctx = ctx) :
    ∃ j, parseKubeConfig.loop i (contextLines c ++ R) st =
      parseKubeConfig.loop j R
        { st with config := { st.config with
            Contexts := st.config.Contexts ++ [trimContext c] } } := by
  have hd := details_contextLines c (TrimSpace c.Name) R hR
  have e0 : ∀ (i : Nat) (rest : List Str) (st : ParseState),
      parseKubeConfig.loop i ("    context:".toList :: rest) st =
        parseKubeConfig.loop (i + 1) rest st := by
    intro i rest st
    exact loop_skip i _ rest st (by decide) (by decide) (by decide)
  have ec : ∀ (i : Nat) (v : Str) (rest : List Str) (st : ParseState),
      parseKubeConfig.loop i (("      cluster: ".toList ++ v) :: rest) st =
        parseKubeConfig.loop (i + 1) rest st := by
    intro i v rest st
    exact loop_skip_key i "      ".toList "cluster:".toList (' ' :: v) rest st (by decide)
      (by decide) (by decide) (by decide) 2 (by decide) (by decide) (by decide) (by decide)
      (by decide)
  have eu : ∀ (i : Nat) (v : Str) (rest : List Str) (st : ParseState),
      parseKubeConfig.loop i (("      user: ".toList ++ v) :: rest) st =
        parseKubeConfig.loop (i + 1) rest st := by
    intro i v rest st
    exact loop_skip_key i "      ".toList "user:".toList (' ' :: v) rest st (by decide)
      (by decide) (by decide) (by decide) 1 (by decide) (by decide) (by decide) (by decide)
      (by decide)
  have en : ∀ (i : Nat) (v : Str) (rest : List Str) (st : ParseState),
      parseKubeConfig.loop i (("      namespace: ".toList ++ v) :: rest) st =
        parseKubeConfig.loop (i + 1) rest st := by
    intro i v rest st
    exact loop_skip_key i "      ".toList "namespace:".toList (' ' :: v) rest st (by decide)
      (by decide) (by decide) (by decide) 1 (by decide) (by decide) (by decide) (by decide)
      (by decide)
  have etc : { Name := TrimSpace c.Name, Context := (trimContext c).Context : Context } =
      trimContext c := rfl
  by_cases hns : c.Context.Namespace = []
  · refine ⟨i + 1 + 1 + 1 + 1, ?_⟩
    simp only [contextLines, hns, ne_eq, not_true_eq_false, if_false, List.append_nil,
      List.tail_cons, List.cons_append, List.nil_append] at hd ⊢
    rw [loop_name i _ _ st hst, hd, e0, ec, eu, etc]
  · refine ⟨i + 1 + 1 + 1 + 1 + 1, ?_⟩
    simp only [contextLines, hns, ne_eq, not_false_eq_true, if_true, List.tail_cons,
      List.cons_append, List.nil_append] at hd ⊢
    rw [loop_name i _ _ st hst, hd, e0, ec, eu, en, etc]

/-- The outer loop on the lines of the contexts: every context is appended, in
order, with its strings trimmed. -/
theorem loop_contextsLines (cs : List Context) (R : List Str) (i : Nat) (st : ParseState)
    (hst : st.contextStart ≠ -1)
    (hR : ∀ ctx, parseKubeConfig.details R ctx = ctx) :
    ∃ j, parseKubeConfig.loop i (contextsLines cs ++ R) st =
      parseKubeConfig.loop j R
        { st with config := { st.config with
            Contexts := st.config.Contexts ++ cs.map trimContext } } := by
  induction cs generalizing i st with
  | nil => exact ⟨i, by simp [contextsLines]⟩
  | cons c cs ih =>
    obtain ⟨j, hj⟩ := loop_contextLines c (contextsLines cs ++ R) i st hst
      (details_stop_contexts cs R hR)
    obtain ⟨j2, hj2⟩ := ih j
      { st with config := { st.config with
          Contexts := st.config.Contexts ++ [trimContext c] } } hst
    refine ⟨j2, ?_⟩
    rw [contextsLines, List.append_assoc, hj, hj2]
    simp

/-! ## Decoding the encoder's output -/

theorem good_nil : Good [] :=
  ⟨TrimSpace_nil, by simp⟩

theorem good_field (l k : Str) (hl : '\n' ∉ l) :
    Good (TrimSpace (TrimPrefix (TrimSpace l) k)) :=
  ⟨TrimSpace_idem _, fun h =>
    hl (mem_of_mem_TrimSpace (mem_of_mem_TrimPrefix (mem_of_mem_TrimSpace h)))⟩

theorem trimContext_good (ctx : Context) (h : GoodContext ctx) : trimContext ctx = ctx := by
  obtain ⟨h1, h2, h3, h4⟩ := h
  cases ctx with
  | mk n d =>
    cases d with
    | mk a b c =>
      simp only [trimContext]
      rw [h1.1, h2.1, h3.1, h4.1]

theorem map_trimContext_good (cs : List Context) (h : ∀ x ∈ cs, GoodContext x) :
    cs.map trimContext = cs := by
  induction cs with
  | nil => rfl
  | cons c cs ih =>
    rw [List.map_cons, trimContext_good c (h c (by simp)),
      ih (fun x hx => h x (by simp [hx]))]

/-- The inner loop of the decoder keeps a context good. -/
theorem details_good (ls : List Str) (hls : ∀ l ∈ ls, '\n' ∉ l) (ctx : Context)
    (h : GoodContext ctx) : GoodContext (parseKubeConfig.details ls ctx) := by
  induction ls generalizing ctx with
  | nil => exact h
  | cons l ls ih =>
    have hl : '\n' ∉ l := hls l (by simp)
    have hls2 : ∀ x ∈ ls, '\n' ∉ x := fun x hx => hls x (by simp [hx])
    obtain ⟨h1, h2, h3, h4⟩ := h
    rw [parseKubeConfig.details]
    simp only []
    split
    · exact ⟨h1, h2, h3, h4⟩
    · split
      · exact ih hls2 _ ⟨h1, good_field l _ hl, h3, h4⟩
      · split
        · exact ih hls2 _ ⟨h1, h2, good_field l _ hl, h4⟩
        · split
          · exact ih hls2 _ ⟨h1, h2, h3, good_field l _ hl⟩
          · exact ih hls2 _ ⟨h1, h2, h3, h4⟩

/-- What the outer loop of the decoder keeps: `currentContext` and the
contexts are good, and no other field of the Config is assigned. -/
theorem loop_good (ls : List Str) (hls : ∀ l ∈ ls, '\n' ∉ l) (i : Nat) (st : ParseState)
    (hcc : Good st.config.CurrentContext) (hcs : ∀ x ∈ st.config.Contexts, GoodContext x) :
    Good (parseKubeConfig.loop i ls st).config.CurrentContext ∧
    (∀ x ∈ (parseKubeConfig.loop i ls st).config.Contexts, GoodContext x) ∧
    (parseKubeConfig.loop i ls st).config.APIVersion = st.config.APIVersion ∧
    (parseKubeConfig.loop i ls st).config.Kind = st.config.Kind ∧
    (parseKubeConfig.loop i ls st).config.Preferences = st.config.Preferences ∧
    (parseKubeConfig.loop i ls st).config.Clusters = st.config.Clusters ∧
    (parseKubeConfig.loop i ls st).config.Users = st.config.Users := by
  induction ls generalizing i st with
  | nil => exact ⟨hcc, hcs, rfl, rfl, rfl, rfl, rfl⟩
  | cons l ls ih =>
    have hl : '\n' ∉ l := hls l (by simp)
    have hls2 : ∀ x ∈ ls, '\n' ∉ x := fun x hx => hls x (by simp [hx])
    rw [parseKubeConfig.loop]
    simp only []
    split
    · exact ih hls2 _ _ (good_field l _ hl) hcs
    · split
      · exact ih hls2 _ _ hcc hcs
      · split
        · refine ih hls2 _ _ hcc ?_
          intro x hx
          rcases List.mem_append.1 hx with h | h
          · exact hcs x h
          · simp only [List.mem_singleton] at h
            subst h
            exact details_good ls hls2 _ ⟨good_field l _ hl, good_nil, good_nil, good_nil⟩
        · exact ih hls2 _ _ hcc hcs

/-- Every Config the decoder returns has a good `currentContext`, good
contexts, and the fixed values of the other fields. -/
theorem parse_good (d : Str) (c : Config) (h : parseKubeConfig d = .ok c) :
    Good c.CurrentContext ∧ (∀ x ∈ c.Contexts, GoodContext x) ∧
    c.APIVersion = "v1".toList ∧ c.Kind = "Config".toList ∧ c.Preferences = [] ∧
    c.Clusters = [] ∧ c.Users = [] := by
  have hg := loop_good (splitLines d) (splitLines_no_newline d) 0 {} good_nil
    (by intro x hx; simp at hx)
  simp only [parseKubeConfig, Except.ok.injEq] at h
  obtain ⟨h1, h2, h3, h4, h5, h6, h7⟩ := hg
  subst h
  simp only [parseKubeConfig.defaults, h3, h4, if_true]
  exact ⟨h1, h2, trivial, trivial, h5, h6, h7⟩

/-- Decoding the encoder's output, for a Config without clusters and users and
without a newline in its strings: `currentContext` and every string of every
context come back trimmed, the contexts in their order. -/
theorem parse_serialize (c : Config)
    (hv : '\n' ∉ c.APIVersion) (hk : '\n' ∉ c.Kind) (hcc : '\n' ∉ c.CurrentContext)
    (hcs : ∀ x ∈ c.Contexts, '\n' ∉ x.Name ∧ '\n' ∉ x.Context.Cluster ∧
      '\n' ∉ x.Context.User ∧ '\n' ∉ x.Context.Namespace)
    (hcl : c.Clusters = []) (hus : c.Users = []) :
    ∃ out, serializeKubeConfig c = .ok out ∧
      parseKubeConfig out = .ok
        { APIVersion := "v1".toList, Kind := "Config".toList,
          CurrentContext := TrimSpace c.CurrentContext,
          Contexts := c.Contexts.map trimContext } := by
  refine ⟨_, serialize_eq c, ?_⟩
  have htr : trailerLines c = [] := by simp [trailerLines, hcl, hus]
  have hctxnl : ∀ cs : List Context,
      (∀ x ∈ cs, '\n' ∉ x.Name ∧ '\n' ∉ x.Context.Cluster ∧
        '\n' ∉ x.Context.User ∧ '\n' ∉ x.Context.Namespace) →
      ∀ l ∈ contextsLines cs, '\n' ∉ l := by
    intro cs
    induction cs with
    | nil => intro _ l hl; simp [contextsLines] at hl
    | cons x xs ih =>
      intro hx l hl
      obtain ⟨h1, h2, h3, h4⟩ := hx x (by simp)
      have hxs := ih (fun y hy => hx y (by simp [hy]))
      rw [contextsLines, List.mem_append] at hl
      rcases hl with hl | hl
      · by_cases hns : x.Context.Namespace = []
        · simp only [contextLines, hns, ne_eq, not_true_eq_false, if_false, List.append_nil,
            List.mem_cons, List.mem_singleton, List.not_mem_nil, or_false] at hl
          rcases hl with hl | hl | hl | hl <;> subst hl <;> simp [h1, h2, h3]
        · simp only [contextLines, hns, ne_eq, not_false_eq_true, if_true, List.cons_append,
            List.nil_append, List.mem_cons, List.mem_singleton, List.not_mem_nil,
            or_false] at hl
          rcases hl with hl | hl | hl | hl | hl <;> subst hl <;> simp [h1, h2, h3, h4]
      · exact hxs l hl
  have hnl : ∀ l ∈ headerLines c ++ contextsLines c.Contexts ++ trailerLines c, '\n' ∉ l := by
    intro l hl
    rw [htr, List.append_nil, List.mem_append] at hl
    rcases hl with hl | hl
    · by_cases hp : c.Preferences.length > 0
      · simp only [headerLines, hp, if_true, List.cons_append, List.nil_append,
          List.mem_cons, List.mem_singleton, List.not_mem_nil, or_false] at hl
        rcases hl with hl | hl | hl | hl | hl <;> subst hl <;> simp [hv, hk, hcc]
      · simp only [headerLines, hp, if_false, List.cons_append, List.nil_append,
          List.append_nil, List.mem_cons, List.mem_singleton, List.not_mem_nil,
          or_false] at hl
        rcases hl with hl | hl | hl | hl <;> subst hl <;> simp [hv, hk, hcc]
    · exact hctxnl c.Contexts hcs l hl
  have ea : ∀ (i : Nat) (v : Str) (rest : List Str) (st : ParseState),
      parseKubeConfig.loop i (("apiVersion: ".toList ++ v) :: rest) st =
        parseKubeConfig.loop (i + 1) rest st := by
    intro i v rest st
    exact loop_skip_key i [] "apiVersion:".toList (' ' :: v) rest st (by decide)
      (by decide) (by decide) (by decide) 1 (by decide) (by decide) (by decide) (by decide)
      (by decide)
  have ek : ∀ (i : Nat) (v : Str) (rest : List Str) (st : ParseState),
      parseKubeConfig.loop i (("kind: ".toList ++ v) :: rest) st =
        parseKubeConfig.loop (i + 1) rest st := by
    intro i v rest st
    exact loop_skip_key i [] "kind:".toList (' ' :: v) rest st (by decide)
      (by decide) (by decide) (by decide) 1 (by decide) (by decide) (by decide) (by decide)
      (by decide)
  have ep : ∀ (i : Nat) (rest : List Str) (st : ParseState),
      parseKubeConfig.loop i ("preferences: {}".toList :: rest) st =
        parseKubeConfig.loop (i + 1) rest st := by
    intro i rest st
    exact loop_skip i _ rest st (by decide) (by decide) (by decide)
  have eend : ∀ (i : Nat) (st : ParseState), parseKubeConfig.loop i [[]] st = st := by
    intro i st
    rw [loop_skip i [] [] st (by decide) (by decide) (by decide), parseKubeConfig.loop]
  have hR : ∀ ctx, parseKubeConfig.details [[]] ctx = ctx := by
    intro ctx
    have h1 : HasPrefix (TrimSpace []) "- name:".toList = false := by decide
    have h2 : HasPrefix (TrimSpace []) "cluster:".toList = false := by decide
    have h3 : HasPrefix (TrimSpace []) "user:".toList = false := by decide
    have h4 : HasPrefix (TrimSpace []) "namespace:".toList = false := by decide
    rw [parseKubeConfig.details]
    simp only [h1, h2, h3, h4, Bool.false_eq_true, if_false, parseKubeConfig.details]
  simp only [parseKubeConfig]
  rw [splitLines_unlines _ hnl, htr, List.append_nil, List.append_assoc]
  congr 1
  by_cases hp : c.Preferences.length > 0
  · simp only [headerLines, hp, if_true, List.cons_append, List.nil_append]
    rw [ea, ek, loop_currentContext, ep, loop_contextsKey]
    obtain ⟨j, hj⟩ := loop_contextsLines c.Contexts [[]] (0 + 1 + 1 + 1 + 1 + 1)
      { config := { CurrentContext := TrimSpace c.CurrentContext },
        contextStart := ((0 + 1 + 1 + 1 + 1 : Nat) : Int) + 1,
        currentContext := TrimSpace c.CurrentContext } (by simp) hR
    rw [hj, eend]
    simp [parseKubeConfig.defaults]
  · simp only [headerLines, hp, if_false, List.cons_append, List.nil_append, List.append_nil]
    rw [ea, ek, loop_currentContext, loop_contextsKey]
    obtain ⟨j, hj⟩ := loop_contextsLines c.Contexts [[]] (0 + 1 + 1 + 1 + 1)
      { config := { CurrentContext := TrimSpace c.CurrentContext },
        contextStart := ((0 + 1 + 1 + 1 : Nat) : Int) + 1,
        currentContext := TrimSpace c.CurrentContext } (by simp) hR
    rw [hj, eend]
    simp [parseKubeConfig.defaults]

/-! ## The context store: claims -/

/-- C2: when `SetCurrentContext(n, ns)` succeeds, `currentContext` is `n` and
`CurrentNamespace()` is `ns` afterwards, for every namespace, the empty one
included. -/
theorem setCurrentContext_sets_current (c : Config) (n ns : Str)
    (h : (c.SetCurrentContext n ns).2 = none) :
    (c.SetCurrentContext n ns).1.CurrentContext = n ∧
      (c.SetCurrentContext n ns).1.CurrentNamespace = ns := by
  by_cases hf : (Config.SetCurrentContext.loop n ns c.Contexts).1 = true
  · have := setLoop_namespace n ns c.Contexts hf
    simp [Config.SetCurrentContext, hf, Config.CurrentNamespace, this]
  · simp [Config.SetCurrentContext, hf] at h

/-- Witness of C2: `use prod staging` on the Config with contexts `dev` and
`prod`. -/
theorem setCurrentContext_sets_current_witness :
    (devProdConfig.SetCurrentContext "prod".toList "staging".toList).1.CurrentContext
        = "prod".toList ∧
      (devProdConfig.SetCurrentContext "prod".toList "staging".toList).1.CurrentNamespace
        = "staging".toList :=
  setCurrentContext_sets_current devProdConfig "prod".toList "staging".toList (by decide)

/-- C3: `SetCurrentContext(n, ns)` returns the not-found error exactly when no
context is named `n` (and no error otherwise), and when no context is named `n`
the Config after the call is the Config before it. -/
theorem setCurrentContext_not_found (c : Config) (n ns : Str) :
    ((c.SetCurrentContext n ns).2 = some (notFoundError n) ↔
        ∀ ctx ∈ c.Contexts, ctx.Name ≠ n) ∧
    ((c.SetCurrentContext n ns).2 = none ↔ ∃ ctx ∈ c.Contexts, ctx.Name = n) ∧
    ((∀ ctx ∈ c.Contexts, ctx.Name ≠ n) → (c.SetCurrentContext n ns).1 = c) := by
  have hfound := setLoop_found n ns c.Contexts
  by_cases hf : (Config.SetCurrentContext.loop n ns c.Contexts).1 = true
  · obtain ⟨x, hx, hxn⟩ := hfound.1 hf
    refine ⟨?_, ?_, ?_⟩
    · simp only [Config.SetCurrentContext, hf]
      constructor
      · intro h; simp at h
      · intro h; exact absurd hxn (h x hx)
    · simp only [Config.SetCurrentContext, hf]
      simp
      exact ⟨x, hx, hxn⟩
    · intro h; exact absurd hxn (h x hx)
  · have hno : ∀ ctx ∈ c.Contexts, ctx.Name ≠ n := by
      intro ctx hctx hn
      exact hf (hfound.2 ⟨ctx, hctx, hn⟩)
    have hf2 : (Config.SetCurrentContext.loop n ns c.Contexts).1 = false := by
      simpa using hf
    have hsame := setLoop_not_found n ns c.Contexts hf2
    refine ⟨?_, ?_, ?_⟩
    · simp [Config.SetCurrentContext, hf2]
      exact hno
    · simp only [Config.SetCurrentContext, hf2]
      simp
      exact hno
    · intro _
      simp [Config.SetCurrentContext, hf2, hsame]

/-- C4, as stated, fails: in `dupConfig` two contexts are named `a`;
`RemoveContext("a")` succeeds and the result still has a context named `a`. -/
theorem removeContext_leaves_duplicate :
    (∃ ctx ∈ dupConfig.Contexts, ctx.Name = "a".toList) ∧
    (dupConfig.RemoveContext "a".toList).2 = none ∧
    (dupConfig.RemoveContext "a".toList).1.Contexts =
      [{ Name := "a".toList, Context := { Cluster := "c2".toList } }] ∧
    ∃ ctx ∈ (dupConfig.RemoveContext "a".toList).1.Contexts, ctx.Name = "a".toList := by
  decide

/-- C4, amended: for every name `n` that at least one context has,
`RemoveContext(n)` succeeds, the context sequence gets exactly one element
shorter and the number of contexts named `n` goes down by exactly one; so no
context named `n` is left when the context names were pairwise distinct. -/
theorem removeContext_existing (c : Config) (n : Str)
    (h : ∃ ctx ∈ c.Contexts, ctx.Name = n) :
    (c.RemoveContext n).2 = none ∧
    (c.RemoveContext n).1.Contexts.length + 1 = c.Contexts.length ∧
    (c.RemoveContext n).1.Contexts.countP (fun x => decide (x.Name = n)) + 1 =
      c.Contexts.countP (fun x => decide (x.Name = n)) ∧
    ((c.Contexts.map (fun x => x.Name)).Nodup →
      ∀ ctx ∈ (c.RemoveContext n).1.Contexts, ctx.Name ≠ n) := by
  obtain ⟨x, hx, hxn⟩ := h
  rcases removeContext_spec c n with ⟨h1, _⟩ | ⟨before, y, after, hc, hy, _, hr⟩
  · exact absurd hxn (h1 x hx)
  · refine ⟨by rw [hr], by rw [hr, hc]; simp; omega, ?_, ?_⟩
    · rw [hr, hc]
      simp only [List.countP_append, List.countP_cons, hy, decide_True, if_true]
      omega
    · intro hnd ctx hctx hname
      rw [hr] at hctx
      rw [hc] at hnd
      simp only [List.map_append, List.map_cons, hy] at hnd
      have hnd2 := List.nodup_middle.1 hnd
      rw [List.nodup_cons] at hnd2
      apply hnd2.1
      rw [← List.map_append]
      exact List.mem_map.2 ⟨ctx, hctx, hname⟩

/-- Witness of C4 (amended): removing `prod` from the Config with contexts
`dev` and `prod`. -/
theorem removeContext_existing_witness :
    (devProdConfig.RemoveContext "prod".toList).2 = none ∧
    (devProdConfig.RemoveContext "prod".toList).1.Contexts.length + 1 =
      devProdConfig.Contexts.length ∧
    (devProdConfig.RemoveContext "prod".toList).1.Contexts.countP
        (fun x => decide (x.Name = "prod".toList)) + 1 =
      devProdConfig.Contexts.countP (fun x => decide (x.Name = "prod".toList)) ∧
    ((devProdConfig.Contexts.map (fun x => x.Name)).Nodup →
      ∀ ctx ∈ (devProdConfig.RemoveContext "prod".toList).1.Contexts,
        ctx.Name ≠ "prod".toList) :=
  removeContext_existing devProdConfig "prod".toList (by decide)

/-- C5: `RemoveContext(n)` returns the not-found error exactly when no context
is named `n` (and no error otherwise), and when no context is named `n` the
Config after the call, its context sequence and `currentContext` included, is
the Config before it. -/
theorem removeContext_not_found (c : Config) (n : Str) :
    ((c.RemoveContext n).2 = some (notFoundError n) ↔ ∀ ctx ∈ c.Contexts, ctx.Name ≠ n) ∧
    ((c.RemoveContext n).2 = none ↔ ∃ ctx ∈ c.Contexts, ctx.Name = n) ∧
    ((∀ ctx ∈ c.Contexts, ctx.Name ≠ n) →
      (c.RemoveContext n).1 = c ∧
      (c.RemoveContext n).1.Contexts = c.Contexts ∧
      (c.RemoveContext n).1.Contexts.length = c.Contexts.length ∧
      (c.RemoveContext n).1.CurrentContext = c.CurrentContext) := by
  rcases removeContext_spec c n with ⟨h1, hr⟩ | ⟨before, y, after, hc, hy, _, hr⟩
  · refine ⟨?_, ?_, ?_⟩
    · rw [hr]; simp; exact h1
    · rw [hr]; simp; exact h1
    · intro _; rw [hr]; simp
  · have hmem : y ∈ c.Contexts := by rw [hc]; simp
    refine ⟨?_, ?_, ?_⟩
    · rw [hr]
      constructor
      · intro h; simp at h
      · intro h; exact absurd hy (h y hmem)
    · rw [hr]; simp; exact ⟨y, hmem, hy⟩
    · intro h; exact absurd hy (h y hmem)

/-- C6: when `RemoveContext(n)` succeeds, the Config after the call is the
Config before it with exactly the first context named `n` deleted from the
context sequence; every other field, `currentContext` included (also when it
is `n`), is unchanged. -/
theorem removeContext_deletes_first (c : Config) (n : Str)
    (h : (c.RemoveContext n).2 = none) :
    ∃ before x after,
      c.Contexts = before ++ x :: after ∧ x.Name = n ∧
      (∀ y ∈ before, y.Name ≠ n) ∧
      (c.RemoveContext n).1 = { c with Contexts := before ++ after } ∧
      (c.RemoveContext n).1.CurrentContext = c.CurrentContext := by
  rcases removeContext_spec c n with ⟨_, hr⟩ | ⟨before, y, after, hc, hy, hb, hr⟩
  · rw [hr] at h; simp at h
  · exact ⟨before, y, after, hc, hy, hb, by rw [hr], by rw [hr]⟩

/-- Witness of C6: removing the current context `dev` from the Config with
contexts `dev` and `prod` leaves `currentContext` at `dev`. -/
theorem removeContext_deletes_first_witness :
    ∃ before x after,
      devProdConfig.Contexts = before ++ x :: after ∧ x.Name = "dev".toList ∧
      (∀ y ∈ before, y.Name ≠ "dev".toList) ∧
      (devProdConfig.RemoveContext "dev".toList).1 =
        { devProdConfig with Contexts := before ++ after } ∧
      (devProdConfig.RemoveContext "dev".toList).1.CurrentContext =
        devProdConfig.CurrentContext :=
  removeContext_deletes_first devProdConfig "dev".toList (by decide)

/-- C7: `ContextExists(n)` is true if and only if `GetContexts()` holds a
context whose name is exactly `n`. -/
theorem contextExists_iff (c : Config) (n : Str) :
    c.ContextExists n = true ↔ ∃ ctx ∈ c.GetContexts, ctx.Name = n := by
  unfold Config.ContextExists Config.GetContexts
  exact existsLoop_iff n c.Contexts

/-- C8, as stated, fails: `parseKubeConfig` on `emptyNameDoc` returns a Config
whose `currentContext` is empty and whose `CurrentNamespace()` is `x`. -/
theorem currentNamespace_empty_current_nonempty :
    parseKubeConfig emptyNameDoc = .ok emptyNameConfig ∧
    emptyNameConfig.CurrentContext = [] ∧
    emptyNameConfig.CurrentNamespace = "x".toList ∧
    emptyNameConfig.CurrentNamespace ≠ [] := by
  decide

/-- C8, amended: for every Config whose `currentContext` is empty and none of
whose contexts has the empty name, `CurrentNamespace()` is empty. -/
theorem currentNamespace_empty_current (c : Config)
    (hcur : c.CurrentContext = [])
    (hnames : ∀ ctx ∈ c.Contexts, ctx.Name ≠ []) :
    c.CurrentNamespace = [] := by
  have key : ∀ cs : List Context, (∀ ctx ∈ cs, ctx.Name ≠ []) →
      Config.CurrentNamespace.loop [] cs = [] := by
    intro cs
    induction cs with
    | nil => intro _; rfl
    | cons x xs ih =>
      intro hx
      have h1 : x.Name ≠ [] := hx x (by simp)
      simp only [Config.CurrentNamespace.loop, h1, if_false]
      exact ih (fun ctx hctx => hx ctx (by simp [hctx]))
  simp only [Config.CurrentNamespace, hcur]
  exact key c.Contexts hnames

/-- Witness of C8 (amended). -/
theorem currentNamespace_empty_current_witness :
    noCurrentConfig.CurrentNamespace = [] :=
  currentNamespace_empty_current noCurrentConfig (by decide) (by decide)

/-- C9: if the context names of a Config are pairwise distinct, they are still
pairwise distinct after `SetCurrentContext` and after `RemoveContext`, whether
the call succeeds or fails. -/
theorem mutations_keep_names_distinct (c : Config) (n ns : Str)
    (h : (c.Contexts.map (fun x => x.Name)).Nodup) :
    ((c.SetCurrentContext n ns).1.Contexts.map (fun x => x.Name)).Nodup ∧
    ((c.RemoveContext n).1.Contexts.map (fun x => x.Name)).Nodup := by
  constructor
  · have hn := setLoop_names n ns c.Contexts
    by_cases hf : (Config.SetCurrentContext.loop n ns c.Contexts).1 = true
    · simp only [Config.SetCurrentContext, hf]
      simpa [hn] using h
    · simp only [Config.SetCurrentContext, hf]
      simpa [hn] using h
  · rcases removeContext_spec c n with ⟨_, hr⟩ | ⟨before, y, after, hc, _, _, hr⟩
    · rw [hr]; exact h
    · rw [hr]
      rw [hc] at h
      simp only [List.map_append, List.map_cons] at h ⊢
      exact h.sublist (List.Sublist.append_left (List.sublist_cons_self _ _) _)

/-- Witness of C9: the Config with contexts `dev` and `prod`, a successful
`SetCurrentContext` and a `RemoveContext`. -/
theorem mutations_keep_names_distinct_witness :
    ((devProdConfig.SetCurrentContext "prod".toList "staging".toList).1.Contexts.map
        (fun x => x.Name)).Nodup ∧
    ((devProdConfig.RemoveContext "prod".toList).1.Contexts.map (fun x => x.Name)).Nodup :=
  mutations_keep_names_distinct devProdConfig "prod".toList "staging".toList (by decide)

/-! ## The codec: claims -/

theorem setLoop_good (name ns : Str) (hns : Good ns) (cs : List Context)
    (h : ∀ x ∈ cs, GoodContext x) :
    ∀ x ∈ (Config.SetCurrentContext.loop name ns cs).2, GoodContext x := by
  induction cs with
  | nil => simp [Config.SetCurrentContext.loop]
  | cons c cs ih =>
    have hc := h c (by simp)
    have hcs : ∀ x ∈ cs, GoodContext x := fun x hx => h x (by simp [hx])
    by_cases hn : c.Name = name
    · intro x hx
      simp only [Config.SetCurrentContext.loop, hn, if_true, List.mem_cons] at hx
      rcases hx with hx | hx
      · subst hx
        exact ⟨hn ▸ hc.1, hc.2.1, hc.2.2.1, hns⟩
      · exact hcs x hx
    · intro x hx
      simp only [Config.SetCurrentContext.loop, hn, if_false, List.mem_cons] at hx
      rcases hx with hx | hx
      · subst hx; exact hc
      · exact ih hcs x hx

/-- Decoding the encoder's output for a Config whose strings are good and which
has no clusters and no users gives back `currentContext` and the contexts. -/
theorem parse_serialize_good (c : Config)
    (hv : '\n' ∉ c.APIVersion) (hk : '\n' ∉ c.Kind) (hcc : Good c.CurrentContext)
    (hcs : ∀ x ∈ c.Contexts, GoodContext x)
    (hcl : c.Clusters = []) (hus : c.Users = []) :
    ∃ out, serializeKubeConfig c = .ok out ∧
      parseKubeConfig out = .ok
        { APIVersion := "v1".toList, Kind := "Config".toList,
          CurrentContext := c.CurrentContext, Contexts := c.Contexts } := by
  obtain ⟨out, h1, h2⟩ := parse_serialize c hv hk hcc.2
    (fun x hx => ⟨(hcs x hx).1.2, (hcs x hx).2.1.2, (hcs x hx).2.2.1.2, (hcs x hx).2.2.2.2⟩)
    hcl hus
  rw [hcc.1, map_trimContext_good c.Contexts hcs] at h2
  exact ⟨out, h1, h2⟩

/-- C1: for every input document `d`, `parseKubeConfig d` returns a Config
`c1`, `serializeKubeConfig c1` returns a text, and decoding that text returns a
Config `c2` with the `currentContext` of `c1` and the sequence of contexts of
`c1` (same order, same name, cluster, user and namespace). -/
theorem decode_encode_decode (d : Str) :
    ∃ c1 out c2, parseKubeConfig d = .ok c1 ∧ serializeKubeConfig c1 = .ok out ∧
      parseKubeConfig out = .ok c2 ∧
      c2.CurrentContext = c1.CurrentContext ∧ c2.Contexts = c1.Contexts := by
  obtain ⟨h1, h2, h3, h4, _, h6, h7⟩ :=
    parse_good d (parseKubeConfig.defaults (parseKubeConfig.loop 0 (splitLines d) {}).config) rfl
  obtain ⟨out, ho, hp⟩ := parse_serialize_good _ (by rw [h3]; decide) (by rw [h4]; decide)
    h1 h2 h6 h7
  exact ⟨_, out, _, rfl, ho, hp, rfl, rfl⟩

/-- C10: for every document `d` with decoded Config `c`, every name `n` of a
context of `c` and every namespace `ns` without a newline and without leading
or trailing white space: `SetCurrentContext(n, ns)` succeeds, the encoder
returns a text (the one `use n ns` leaves in the file, with exit status 0), and
decoding that text gives a Config whose `currentContext` is `n`, whose
`CurrentNamespace()` is `ns` and whose context names are those of `c`, in the
same order. -/
theorem use_end_to_end (d : Str) (c : Config) (n ns : Str)
    (hd : parseKubeConfig d = .ok c)
    (hn : ∃ ctx ∈ c.Contexts, ctx.Name = n)
    (hnl : '\n' ∉ ns)
    (hhead : ∀ a, ns.head? = some a → isSpace a = false)
    (hlast : ∀ a, ns.getLast? = some a → isSpace a = false) :
    ∃ out c2, (c.SetCurrentContext n ns).2 = none ∧
      serializeKubeConfig (c.SetCurrentContext n ns).1 = .ok out ∧
      runUse (some d) [n, ns] = (some out, 0) ∧
      parseKubeConfig out = .ok c2 ∧
      c2.CurrentContext = n ∧ c2.CurrentNamespace = ns ∧
      c2.Contexts.map (fun x => x.Name) = c.Contexts.map (fun x => x.Name) := by
  obtain ⟨_, h2, h3, h4, _, h6, h7⟩ := parse_good d c hd
  have hns : Good ns := ⟨TrimSpace_eq_self ns hhead hlast, hnl⟩
  have hgn : Good n := by
    obtain ⟨x, hx, hxn⟩ := hn
    rw [← hxn]
    exact (h2 x hx).1
  have hf : (Config.SetCurrentContext.loop n ns c.Contexts).1 = true :=
    (setLoop_found n ns c.Contexts).2 hn
  have hset : c.SetCurrentContext n ns =
      ({ c with Contexts := (Config.SetCurrentContext.loop n ns c.Contexts).2,
                CurrentContext := n }, none) := by
    simp [Config.SetCurrentContext, hf]
  have hex : c.ContextExists n = true := (existsLoop_iff n c.Contexts).2 hn
  obtain ⟨out, ho, hp⟩ := parse_serialize_good
    { c with Contexts := (Config.SetCurrentContext.loop n ns c.Contexts).2,
             CurrentContext := n }
    (by rw [h3]; decide) (by rw [h4]; decide) hgn
    (setLoop_good n ns hns c.Contexts h2) h6 h7
  refine ⟨out, _, by rw [hset], by rw [hset]; exact ho, ?_, hp, rfl, ?_, ?_⟩
  · simp [runUse, Load, hd, hex, hset, Config.Save, ho]
  · exact setLoop_namespace n ns c.Contexts hf
  · exact setLoop_names n ns c.Contexts

/-- Witness of C10: contexts `dev` and `prod`, current `dev`, and
`use prod staging`. -/
theorem use_end_to_end_witness :
    ∃ out c2, (devProdConfig.SetCurrentContext "prod".toList "staging".toList).2 = none ∧
      serializeKubeConfig
        (devProdConfig.SetCurrentContext "prod".toList "staging".toList).1 = .ok out ∧
      runUse (some devProdDoc) ["prod".toList, "staging".toList] = (some out, 0) ∧
      parseKubeConfig out = .ok c2 ∧
      c2.CurrentContext = "prod".toList ∧ c2.CurrentNamespace = "staging".toList ∧
      c2.Contexts.map (fun x => x.Name) = devProdConfig.Contexts.map (fun x => x.Name) :=
  use_end_to_end devProdDoc devProdConfig "prod".toList "staging".toList (by decide)
    (by decide) (by decide)
    (by intro a h; simp at h; subst h; decide)
    (by intro a h; simp at h; subst h; decide)

/-! ## The decoder and the encoder: claims on their results -/

/-- C12: for every input, `parseKubeConfig` returns a Config with apiVersion
`v1`, kind `Config`, no clusters, no users and no preferences: the Config is
determined by its `currentContext` and its contexts. -/
theorem parse_fixed_fields (d : Str) :
    ∃ c, parseKubeConfig d = .ok c ∧
      c.APIVersion = "v1".toList ∧ c.Kind = "Config".toList ∧
      c.Clusters = [] ∧ c.Users = [] ∧ c.Preferences = [] ∧
      c = { APIVersion := "v1".toList, Kind := "Config".toList,
            CurrentContext := c.CurrentContext, Contexts := c.Contexts } := by
  obtain ⟨_, _, h3, h4, h5, h6, h7⟩ :=
    parse_good d (parseKubeConfig.defaults (parseKubeConfig.loop 0 (splitLines d) {}).config) rfl
  refine ⟨_, rfl, h3, h4, h6, h7, h5, ?_⟩
  generalize parseKubeConfig.defaults (parseKubeConfig.loop 0 (splitLines d) {}).config = c at *
  cases c
  simp only [Config.mk.injEq] at *
  exact ⟨h3, h4, h5, trivial, trivial, h6, h7⟩

theorem serialize_clusters_erase (b : Str) (cs : List Cluster) :
    serializeKubeConfig.clusters b (cs.map eraseClusterSecrets) =
      serializeKubeConfig.clusters b cs := by
  induction cs generalizing b with
  | nil => rfl
  | cons x xs ih => simp only [List.map_cons, serializeKubeConfig.clusters, eraseClusterSecrets, ih]

theorem serialize_users_erase (b : Str) (us : List User) :
    serializeKubeConfig.users b (us.map eraseUserSecrets) = serializeKubeConfig.users b us := by
  induction us generalizing b with
  | nil => rfl
  | cons x xs ih => simp only [List.map_cons, serializeKubeConfig.users, eraseUserSecrets, ih]

/-- The encoder does not read the fields that `eraseSecrets` clears. -/
theorem serialize_eraseSecrets (c : Config) :
    serializeKubeConfig (eraseSecrets c) = serializeKubeConfig c := by
  simp only [serializeKubeConfig, eraseSecrets, List.length_map, serialize_clusters_erase,
    serialize_users_erase]

/-- C13: two Configs that differ only in the certificate-authority fields of
their clusters and in the auth fields of their users are encoded to the same
bytes. -/
theorem serialize_drops_secrets (c1 c2 : Config) (h : eraseSecrets c1 = eraseSecrets c2) :
    serializeKubeConfig c1 = serializeKubeConfig c2 := by
  rw [← serialize_eraseSecrets c1, ← serialize_eraseSecrets c2, h]

/-- Witness of C13: `secretConfigA` and `secretConfigB`, which differ in a
cluster's certificate-authority data and in a user's token and password. -/
theorem serialize_drops_secrets_witness :
    secretConfigA ≠ secretConfigB ∧
      serializeKubeConfig secretConfigA = serializeKubeConfig secretConfigB :=
  ⟨by decide, serialize_drops_secrets secretConfigA secretConfigB (by decide)⟩

/-- C14: `serializeKubeConfig` never fails, and its output is made of these
lines, each ended by a newline, in this order: the `apiVersion:` line, the
`kind:` line, the `current-context:` line, `preferences: {}` exactly when the
preferences are not empty, `contexts:`, the lines of every context in sequence
order (`- name:`, `context:`, `cluster:`, `user:`, and `namespace:` exactly when
the namespace is not empty), then the `clusters:` block exactly when there are
clusters and the `users:` block exactly when there are users. -/
theorem serialize_layout (c : Config) :
    (∀ err, serializeKubeConfig c ≠ .error err) ∧
    serializeKubeConfig c = .ok (unlines (
      ["apiVersion: ".toList ++ c.APIVersion, "kind: ".toList ++ c.Kind,
       "current-context: ".toList ++ c.CurrentContext] ++
      (if c.Preferences.length > 0 then ["preferences: {}".toList] else []) ++
      ["contexts:".toList] ++
      contextsLines c.Contexts ++
      (if c.Clusters.length > 0 then "clusters:".toList :: clustersLines c.Clusters else []) ++
      (if c.Users.length > 0 then "users:".toList :: usersLines c.Users else []))) := by
  have h := serialize_eq c
  constructor
  · intro err he
    rw [h] at he
    cases he
  · rw [h]
    simp only [headerLines, trailerLines, List.append_assoc]

/-- C17: `parseKubeConfig` returns a Config and no error on every input. -/
theorem parse_total (d : Str) :
    (∃ c, parseKubeConfig d = .ok c) ∧ ∀ err, parseKubeConfig d ≠ .error err := by
  constructor
  · exact ⟨_, rfl⟩
  · intro err he
    simp only [parseKubeConfig] at he
    cases he

theorem setLoop_spec (name ns : Str) (cs : List Context)
    (h : (Config.SetCurrentContext.loop name ns cs).1 = true) :
    ∃ before x after, cs = before ++ x :: after ∧ x.Name = name ∧
      (∀ y ∈ before, y.Name ≠ name) ∧
      (Config.SetCurrentContext.loop name ns cs).2 =
        before ++ { x with Context := { x.Context with Namespace := ns } } :: after := by
  induction cs with
  | nil => simp [Config.SetCurrentContext.loop] at h
  | cons c cs ih =>
    by_cases hc : c.Name = name
    · refine ⟨[], c, cs, rfl, hc, by simp, ?_⟩
      simp only [Config.SetCurrentContext.loop, hc, if_true, List.nil_append]
    · simp only [Config.SetCurrentContext.loop, hc, if_false] at h ⊢
      obtain ⟨before, x, after, h1, h2, h3, h4⟩ := ih h
      refine ⟨c :: before, x, after, by rw [h1]; rfl, h2, ?_, by rw [h4]; rfl⟩
      intro y hy
      rcases List.mem_cons.1 hy with e | e
      · rw [e]; exact hc
      · exact h3 y e

/-- C19: when `SetCurrentContext(n, ns)` succeeds, the Config after the call is
the Config before it with `currentContext` set to `n` and the namespace of the
first context named `n` set to `ns`; the other contexts (later ones named `n`
included), the order, and every other field are unchanged. -/
theorem setCurrentContext_frame (c : Config) (n ns : Str)
    (h : (c.SetCurrentContext n ns).2 = none) :
    ∃ before x after, c.Contexts = before ++ x :: after ∧ x.Name = n ∧
      (∀ y ∈ before, y.Name ≠ n) ∧
      (c.SetCurrentContext n ns).1 =
        { c with CurrentContext := n,
                 Contexts := before ++
                   { x with Context := { x.Context with Namespace := ns } } :: after } := by
  by_cases hf : (Config.SetCurrentContext.loop n ns c.Contexts).1 = true
  · obtain ⟨before, x, after, h1, h2, h3, h4⟩ := setLoop_spec n ns c.Contexts hf
    refine ⟨before, x, after, h1, h2, h3, ?_⟩
    simp [Config.SetCurrentContext, hf, h4]
  · simp [Config.SetCurrentContext, hf] at h

/-- Witness of C19: in `dupConfig` both contexts are named `a`; only the first
one gets the namespace. -/
theorem setCurrentContext_frame_witness :
    ∃ before x after, dupConfig.Contexts = before ++ x :: after ∧ x.Name = "a".toList ∧
      (∀ y ∈ before, y.Name ≠ "a".toList) ∧
      (dupConfig.SetCurrentContext "a".toList "ns".toList).1 =
        { dupConfig with
          CurrentContext := "a".toList
          Contexts := before ++
            { x with Context := { x.Context with Namespace := "ns".toList } } :: after } :=
  setCurrentContext_frame dupConfig "a".toList "ns".toList (by decide)

/-! ## The decoder, line by line: claims -/

/-- A string does not start with two keys that differ within their first `j`
characters. -/
theorem HasPrefix_exclusive (t p q : Str) (j : Nat) (hj : j ≤ p.length) (hjq : j ≤ q.length)
    (hne : p.take j ≠ q.take j) (hp : HasPrefix t p = true) : HasPrefix t q = false := by
  have hp2 : p <+: t := by simpa [HasPrefix] using hp
  obtain ⟨x, rfl⟩ := hp2
  exact HasPrefix_append_false p x q j hj hjq hne

theorem afterContexts_cons_neg (l : Str) (rest : List Str)
    (h : hasKey "contexts:".toList l = false) :
    afterContexts (l :: rest) = afterContexts rest := by
  simp only [afterContexts, List.dropWhile_cons, h, Bool.not_false, if_true]

theorem afterContexts_cons_pos (l : Str) (rest : List Str)
    (h : hasKey "contexts:".toList l = true) :
    afterContexts (l :: rest) = rest := by
  simp only [afterContexts, List.dropWhile_cons, h, Bool.not_true, Bool.false_eq_true,
    if_false, List.drop_succ_cons, List.drop_zero]

theorem nameLinesWithRest_cons_neg (l : Str) (rest : List Str)
    (h : hasKey "- name:".toList l = false) :
    nameLinesWithRest (l :: rest) = nameLinesWithRest rest := by
  simp only [nameLinesWithRest, h, Bool.false_eq_true, if_false]

theorem nameLinesWithRest_cons_pos (l : Str) (rest : List Str)
    (h : hasKey "- name:".toList l = true) :
    nameLinesWithRest (l :: rest) = (l, rest) :: nameLinesWithRest rest := by
  simp only [nameLinesWithRest, h, if_true]

theorem nameLinesWithRest_fst (ls : List Str) :
    (nameLinesWithRest ls).map (fun p => p.1) = ls.filter (hasKey "- name:".toList) := by
  induction ls with
  | nil => rfl
  | cons l rest ih =>
    by_cases h : hasKey "- name:".toList l = true
    · rw [nameLinesWithRest_cons_pos l rest h, List.map_cons, ih, List.filter_cons_of_pos h]
    · have h2 : hasKey "- name:".toList l = false := by simpa using h
      rw [nameLinesWithRest_cons_neg l rest h2, ih, List.filter_cons_of_neg h]

/-- The contexts the outer loop of the decoder appends: one for every
`- name:` line that comes after a `contexts:` line, in file order, built by
the inner loop from the lines that follow it. -/
theorem loop_contexts (ls : List Str) (i : Nat) (st : ParseState) :
    (parseKubeConfig.loop i ls st).config.Contexts =
      st.config.Contexts ++
        (nameLinesWithRest (if st.contextStart = -1 then afterContexts ls else ls)).map
          contextAt := by
  induction ls generalizing i st with
  | nil => simp [parseKubeConfig.loop, afterContexts, nameLinesWithRest]
  | cons l rest ih =>
    rw [parseKubeConfig.loop]
    simp only []
    by_cases h1 : HasPrefix (TrimSpace l) "current-context:".toList = true
    · have h2 : hasKey "contexts:".toList l = false :=
        HasPrefix_exclusive _ _ _ 2 (by decide) (by decide) (by decide) h1
      have h3 : hasKey "- name:".toList l = false :=
        HasPrefix_exclusive _ _ _ 1 (by decide) (by decide) (by decide) h1
      simp only [h1, if_true]
      rw [ih]
      by_cases hs : st.contextStart = -1
      · simp only [hs, if_true, afterContexts_cons_neg l rest h2]
      · simp only [hs, if_false, nameLinesWithRest_cons_neg l rest h3]
    · simp only [h1, Bool.false_eq_true, if_false]
      by_cases h2 : HasPrefix (TrimSpace l) "contexts:".toList = true
      · have h3 : hasKey "- name:".toList l = false :=
          HasPrefix_exclusive _ _ _ 1 (by decide) (by decide) (by decide) h2
        have hne : ((i : Int) + 1 = -1) = False := by
          apply propext
          constructor
          · intro h; omega
          · intro h; exact h.elim
        simp only [h2, if_true]
        rw [ih]
        by_cases hs : st.contextStart = -1
        · simp only [hs, hne, if_true, if_false, afterContexts_cons_pos l rest h2]
        · simp only [hs, hne, if_false, nameLinesWithRest_cons_neg l rest h3]
      · have h2b : hasKey "contexts:".toList l = false := by simpa [hasKey] using h2
        simp only [h2, Bool.false_eq_true, if_false]
        by_cases h3 : HasPrefix (TrimSpace l) "- name:".toList = true
        · by_cases hs : st.contextStart = -1
          · have hb : (st.contextStart != -1) = false := by simp [hs]
            simp only [h3, hb, Bool.and_false, Bool.false_eq_true, if_false]
            rw [ih]
            simp only [hs, if_true, afterContexts_cons_neg l rest h2b]
          · have hb : (st.contextStart != -1) = true := by simpa using hs
            simp only [h3, hb, Bool.and_self, if_true]
            rw [ih]
            simp only [hs, if_false, nameLinesWithRest_cons_pos l rest h3, List.map_cons,
              List.append_assoc, List.singleton_append, contextAt, fieldValue]
        · have h3b : hasKey "- name:".toList l = false := by simpa [hasKey] using h3
          simp only [h3, Bool.false_and, Bool.false_eq_true, if_false]
          rw [ih]
          by_cases hs : st.contextStart = -1
          · simp only [hs, if_true, afterContexts_cons_neg l rest h2b]
          · simp only [hs, if_false, nameLinesWithRest_cons_neg l rest h3b]

/-- The contexts of the Config the decoder returns. -/
theorem parse_contexts (d : Str) :
    ∃ c, parseKubeConfig d = .ok c ∧
      c.Contexts = (nameLinesWithRest (afterContexts (splitLines d))).map contextAt := by
  refine ⟨_, rfl, ?_⟩
  have h := loop_contexts (splitLines d) 0 {}
  have hd : ∀ cfg : Config, (parseKubeConfig.defaults cfg).Contexts = cfg.Contexts := by
    intro cfg
    simp only [parseKubeConfig.defaults]
    split <;> split <;> rfl
  rw [hd, h]
  simp

theorem lastValue_nil (key init : Str) : lastValue key [] init = init := rfl

theorem lastValue_cons (key l : Str) (r : List Str) (init : Str) :
    lastValue key (l :: r) init =
      lastValue key r (if hasKey key l = true then fieldValue key l else init) := by
  unfold lastValue
  by_cases h : hasKey key l = true
  · rw [List.filter_cons_of_pos h]
    cases hr : r.filter (hasKey key) with
    | nil => simp [h]
    | cons y ys =>
      rw [List.getLast?_cons_cons, List.getLast?_eq_getLast (y :: ys) (List.cons_ne_nil _ _)]
  · rw [List.filter_cons_of_neg h]
    simp [h]

theorem detailRegion_cons_pos (l : Str) (rest : List Str)
    (h : hasKey "- name:".toList l = true) : detailRegion (l :: rest) = [] := by
  simp only [detailRegion, List.takeWhile_cons, h, Bool.not_true, Bool.false_eq_true, if_false]

theorem detailRegion_cons_neg (l : Str) (rest : List Str)
    (h : hasKey "- name:".toList l = false) :
    detailRegion (l :: rest) = l :: detailRegion rest := by
  simp only [detailRegion, List.takeWhile_cons, h, Bool.not_false, if_true]

/-- The inner loop of the decoder leaves in every field the value of the last
line with the field's key among the lines up to the next `- name:` line. -/
theorem details_eq_last (ls : List Str) (ctx : Context) :
    parseKubeConfig.details ls ctx =
      { Name := ctx.Name,
        Context :=
          { Cluster := lastValue "cluster:".toList (detailRegion ls) ctx.Context.Cluster,
            User := lastValue "user:".toList (detailRegion ls) ctx.Context.User,
            Namespace := lastValue "namespace:".toList (detailRegion ls) ctx.Context.Namespace } } := by
  induction ls generalizing ctx with
  | nil => rfl
  | cons l rest ih =>
    rw [parseKubeConfig.details]
    simp only []
    by_cases h0 : HasPrefix (TrimSpace l) "- name:".toList = true
    · simp only [h0, if_true, detailRegion_cons_pos l rest h0, lastValue_nil]
    · have h0b : hasKey "- name:".toList l = false := by simpa [hasKey] using h0
      simp only [h0, Bool.false_eq_true, if_false, detailRegion_cons_neg l rest h0b,
        lastValue_cons]
      by_cases h1 : HasPrefix (TrimSpace l) "cluster:".toList = true
      · have h2 : hasKey "user:".toList l = false :=
          HasPrefix_exclusive _ _ _ 1 (by decide) (by decide) (by decide) h1
        have h3 : hasKey "namespace:".toList l = false :=
          HasPrefix_exclusive _ _ _ 1 (by decide) (by decide) (by decide) h1
        have h1b : hasKey "cluster:".toList l = true := h1
        simp only [h1, if_true, ih, h1b, h2, h3, Bool.false_eq_true, if_false, fieldValue]
      · have h1b : hasKey "cluster:".toList l = false := by simpa [hasKey] using h1
        simp only [h1, Bool.false_eq_true, if_false]
        by_cases h2 : HasPrefix (TrimSpace l) "user:".toList = true
        · have h3 : hasKey "namespace:".toList l = false :=
            HasPrefix_exclusive _ _ _ 1 (by decide) (by decide) (by decide) h2
          have h2b : hasKey "user:".toList l = true := h2
          simp only [h2, if_true, ih, h1b, h2b, h3, Bool.false_eq_true, if_false, fieldValue]
        · have h2b : hasKey "user:".toList l = false := by simpa [hasKey] using h2
          simp only [h2, Bool.false_eq_true, if_false]
          by_cases h3 : HasPrefix (TrimSpace l) "namespace:".toList = true
          · have h3b : hasKey "namespace:".toList l = true := h3
            simp only [h3, if_true, ih, h1b, h2b, h3b, Bool.false_eq_true, if_false,
              fieldValue]
          · have h3b : hasKey "namespace:".toList l = false := by simpa [hasKey] using h3
            simp only [h3, Bool.false_eq_true, if_false, ih, h1b, h2b, h3b]

/-- C11, as stated, fails: in `twoClusterDoc` the context `a` is followed by
the lines `cluster: x` and `cluster: y`; the first value is `x` and the decoder
returns the cluster `y`. -/
theorem details_first_value_fails :
    parseKubeConfig twoClusterDoc =
      .ok { APIVersion := "v1".toList, Kind := "Config".toList,
            Contexts := [{ Name := "a".toList, Context := { Cluster := "y".toList } }] } ∧
    (nameLinesWithRest (afterContexts (splitLines twoClusterDoc))).map
        (fun p => firstValue "cluster:".toList (detailRegion p.2)) = ["x".toList] ∧
    "y".toList ≠ "x".toList := by
  decide

/-- C11, amended: for every input, the decoded contexts are, in file order, one
for every `- name:` line that comes after a `contexts:` line, and the cluster,
user and namespace of each are the values of the LAST line with the key
`cluster:`, `user:` and `namespace:` among the lines that follow the
`- name:` line up to the next `- name:` line or the end of the input (empty
when there is no such line). -/
theorem details_last_value (d : Str) :
    ∃ c, parseKubeConfig d = .ok c ∧
      c.Contexts = (nameLinesWithRest (afterContexts (splitLines d))).map (fun p =>
        { Name := fieldValue "- name:".toList p.1,
          Context :=
            { Cluster := lastValue "cluster:".toList (detailRegion p.2) [],
              User := lastValue "user:".toList (detailRegion p.2) [],
              Namespace := lastValue "namespace:".toList (detailRegion p.2) [] } }) := by
  obtain ⟨c, hc, hctx⟩ := parse_contexts d
  refine ⟨c, hc, ?_⟩
  rw [hctx]
  apply List.map_congr_left
  intro p _
  rw [contextAt, details_eq_last]

/-- C18: for every input, the decoded contexts correspond one-to-one and in
file order to the lines whose trimmed text starts with `- name:` and that come
after a line whose trimmed text starts with `contexts:`; the name of each is
the trimmed remainder of its line. -/
theorem contexts_are_name_lines (d : Str) :
    ∃ c, parseKubeConfig d = .ok c ∧
      c.Contexts.length = (nameLines (splitLines d)).length ∧
      c.Contexts.map (fun x => x.Name) =
        (nameLines (splitLines d)).map (fieldValue "- name:".toList) := by
  obtain ⟨c, hc, hctx⟩ := parse_contexts d
  have hname : ∀ p : Str × List Str, (contextAt p).Name = fieldValue "- name:".toList p.1 := by
    intro p
    rw [contextAt, details_eq_last]
  have hmap : c.Contexts.map (fun x => x.Name) =
      (nameLines (splitLines d)).map (fieldValue "- name:".toList) := by
    rw [hctx, nameLines, ← nameLinesWithRest_fst, List.map_map, List.map_map]
    apply List.map_congr_left
    intro p _
    exact hname p
  refine ⟨c, hc, ?_, hmap⟩
  have := congrArg List.length hmap
  simpa using this

/-- A `- name:` line before the `contexts:` line gives no context: the names
decoded from `earlyNameDoc`. -/
theorem early_name_line_ignored :
    (parseKubeConfig earlyNameDoc).toOption.map (fun c => c.Contexts.map (fun x => x.Name)) =
      some ["a".toList, "b".toList] := by
  decide

/-! ## The command layer: claims -/

/-- C15: for every loaded Config and the name `n` of its current context,
`runRemove` ends with exit status 1 and an error message, `Save` has written
nothing and the Config in memory is the loaded one. -/
theorem runRemove_rejects_current (d : Str) (c : Config) (n : Str)
    (hd : parseKubeConfig d = .ok c) (hn : c.CurrentContext = n) :
    (runRemove (some d) n).exit = 1 ∧
    (runRemove (some d) n).written = none ∧
    (runRemove (some d) n).kc = some c ∧
    (runRemove (some d) n).stdout = [] ∧
    ((runRemove (some d) n).stderr =
        "Error: context '".toList ++ n ++ "' does not exist\n".toList ∨
     (runRemove (some d) n).stderr =
        "Error: cannot remove currently active context '".toList ++ n ++ "'\n".toList) := by
  have hl : Load (some d) = .ok c := by simp only [Load, hd]
  by_cases he : c.ContextExists n = true
  · simp only [runRemove, hl, he, Bool.not_true, Bool.false_eq_true, if_false, hn, if_true,
      or_true, and_self]
  · have he2 : c.ContextExists n = false := by simpa using he
    simp only [runRemove, hl, he2, Bool.not_false, if_true, true_or, and_self]

/-- Witness of C15: `rm dev` on the document with contexts `dev` and `prod`,
current `dev`. -/
theorem runRemove_rejects_current_witness :
    (runRemove (some devProdDoc) "dev".toList).exit = 1 ∧
    (runRemove (some devProdDoc) "dev".toList).written = none ∧
    (runRemove (some devProdDoc) "dev".toList).kc = some devProdConfig ∧
    (runRemove (some devProdDoc) "dev".toList).stdout = [] ∧
    ((runRemove (some devProdDoc) "dev".toList).stderr =
        "Error: context '".toList ++ "dev".toList ++ "' does not exist\n".toList ∨
     (runRemove (some devProdDoc) "dev".toList).stderr =
        "Error: cannot remove currently active context '".toList ++ "dev".toList ++
          "'\n".toList) :=
  runRemove_rejects_current devProdDoc devProdConfig "dev".toList (by decide) (by decide)

theorem runList_loop_eq (kc : Config) (cur out : Str) (cs : List Context) :
    runList.loop kc cur out cs = out ++ unlines (cs.map (listLine kc cur)) := by
  induction cs generalizing out with
  | nil => simp [runList.loop, unlines]
  | cons x xs ih =>
    rw [runList.loop, ih]
    by_cases h : x.Name = cur ∧ kc.CurrentNamespace ≠ []
    · simp only [h, and_self, ne_eq, not_false_eq_true, if_true, List.map_cons, unlines,
        listLine, newline_toList, List.append_assoc, List.singleton_append, List.nil_append,
        List.cons_append]
    · simp only [h, if_false, List.map_cons, unlines, listLine, newline_toList,
        List.append_assoc, List.singleton_append, List.append_nil]

theorem currentNamespace_loop_no_newline (cur : Str) (cs : List Context)
    (h : ∀ x ∈ cs, GoodContext x) : '\n' ∉ Config.CurrentNamespace.loop cur cs := by
  induction cs with
  | nil => simp [Config.CurrentNamespace.loop]
  | cons x xs ih =>
    by_cases hx : x.Name = cur
    · simp only [Config.CurrentNamespace.loop, hx, if_true]
      exact (h x (by simp)).2.2.2.2
    · simp only [Config.CurrentNamespace.loop, hx, if_false]
      exact ih (fun y hy => h y (by simp [hy]))

theorem countP_name_le_one (n : Str) (cs : List Context)
    (h : (cs.map (fun x => x.Name)).Nodup) :
    cs.countP (fun x => decide (x.Name = n)) ≤ 1 := by
  induction cs with
  | nil => simp
  | cons x xs ih =>
    rw [List.map_cons, List.nodup_cons] at h
    by_cases hx : x.Name = n
    · have h0 : xs.countP (fun x => decide (x.Name = n)) = 0 := by
        rw [List.countP_eq_zero]
        intro y hy hyn
        apply h.1
        rw [hx]
        exact List.mem_map.2 ⟨y, hy, by simpa using hyn⟩
      simp [List.countP_cons, hx, h0]
    · have := ih h.2
      simp [List.countP_cons, hx, this]

theorem listLine_head (kc : Config) (cur : Str) (ctx : Context) :
    (listLine kc cur ctx).head? = some (if ctx.Name = cur then '*' else ' ') := by
  by_cases h : ctx.Name = cur
  · simp only [listLine, h, if_true]
    rfl
  · simp only [listLine, h, if_false]
    rfl

theorem listLine_no_newline (kc : Config) (cur : Str) (ctx : Context)
    (hn : '\n' ∉ ctx.Name) (hns : '\n' ∉ kc.CurrentNamespace) :
    '\n' ∉ listLine kc cur ctx := by
  have h1 : '\n' ∉ (if ctx.Name = cur then "*".toList else " ".toList) := by
    split <;> decide
  have h2 : '\n' ∉ (if ctx.Name = cur ∧ kc.CurrentNamespace ≠ [] then
      " (namespace: ".toList ++ kc.CurrentNamespace ++ ")".toList else []) := by
    split
    · simp [hns]
    · simp
  intro h
  simp only [listLine, List.mem_append] at h
  rcases h with ((h | h) | h) | h
  · exact h1 h
  · revert h; decide
  · exact hn h
  · exact h2 h

/-- The number of marked lines in the listing of a decoded Config: the number
of contexts whose name is `currentContext`. -/
theorem markedLines_count (d : Str) (c : Config) (hd : parseKubeConfig d = .ok c) :
    (markedLines (runList (some d)).stdout).length =
      c.Contexts.countP (fun x => decide (x.Name = c.CurrentContext)) := by
  obtain ⟨_, h2, _⟩ := parse_good d c hd
  have hl : Load (some d) = .ok c := by simp only [Load, hd]
  by_cases hlen : c.Contexts.length = 0
  · have hnil : c.Contexts = [] := List.length_eq_zero.1 hlen
    have hm : markedLines "No contexts found\n".toList = [] := by decide
    simp only [runList, hl, Config.GetContexts, hlen, if_true, hm, hnil, List.length_nil,
      List.countP_nil]
  · have hns : '\n' ∉ c.CurrentNamespace :=
      currentNamespace_loop_no_newline c.CurrentContext c.Contexts h2
    have hnl : ∀ l ∈ c.Contexts.map (listLine c c.CurrentContext), '\n' ∉ l := by
      intro l hl
      obtain ⟨x, hx, rfl⟩ := List.mem_map.1 hl
      exact listLine_no_newline c c.CurrentContext x (h2 x hx).1.2 hns
    have hempty : decide (([] : Str).head? = some '*') = false := by decide
    simp only [runList, hl, Config.GetContexts, hlen, if_false, runList_loop_eq,
      List.nil_append, markedLines, splitLines_unlines _ hnl, List.filter_append,
      List.filter_cons, hempty, Bool.false_eq_true, List.filter_nil, List.append_nil]
    rw [← List.countP_eq_length_filter, List.countP_map]
    apply List.countP_congr
    intro x _
    simp only [Function.comp, listLine_head, decide_eq_true_eq]
    by_cases hx : x.Name = c.CurrentContext
    · simp [hx]
    · simp [hx]

/-- C16, as stated, fails: `dupCurrentDoc` has two contexts named `dev` and the
current context `dev`; `ls` prints two lines with the marker. -/
theorem runList_marks_two :
    (∃ c, parseKubeConfig dupCurrentDoc = .ok c) ∧
    (runList (some dupCurrentDoc)).stdout = "* dev\n* dev\n".toList ∧
    (markedLines (runList (some dupCurrentDoc)).stdout).length = 2 := by
  refine ⟨⟨_, rfl⟩, by decide, by decide⟩

/-- The text `ls` prints for a decoded Config: one line per context, in
order, or the line `No contexts found`. -/
theorem runList_stdout (d : Str) (c : Config) (hd : parseKubeConfig d = .ok c) :
    (runList (some d)).stdout =
      if c.Contexts.length = 0 then "No contexts found\n".toList
      else unlines (c.Contexts.map (listLine c c.CurrentContext)) := by
  have hl : Load (some d) = .ok c := by simp only [Load, hd]
  by_cases hlen : c.Contexts.length = 0
  · simp only [runList, hl, Config.GetContexts, hlen, if_true]
  · simp only [runList, hl, Config.GetContexts, hlen, if_false, runList_loop_eq,
      List.nil_append]

/-- No line of the listing of a decoded Config holds a newline. -/
theorem listLines_no_newline (d : Str) (c : Config) (hd : parseKubeConfig d = .ok c) :
    ∀ l ∈ c.Contexts.map (listLine c c.CurrentContext), '\n' ∉ l := by
  obtain ⟨_, h2, _⟩ := parse_good d c hd
  have hns : '\n' ∉ c.CurrentNamespace :=
    currentNamespace_loop_no_newline c.CurrentContext c.Contexts h2
  intro l hl
  obtain ⟨x, hx, rfl⟩ := List.mem_map.1 hl
  exact listLine_no_newline c c.CurrentContext x (h2 x hx).1.2 hns

/-- The marked lines of the listing of a decoded Config: the lines of the
contexts whose name is `currentContext`, in order. -/
theorem markedLines_eq (d : Str) (c : Config) (hd : parseKubeConfig d = .ok c) :
    markedLines (runList (some d)).stdout =
      (c.Contexts.filter (fun x => decide (x.Name = c.CurrentContext))).map
        (listLine c c.CurrentContext) := by
  rw [runList_stdout d c hd]
  by_cases hlen : c.Contexts.length = 0
  · have hnil : c.Contexts = [] := List.length_eq_zero.1 hlen
    have hm : markedLines "No contexts found\n".toList = [] := by decide
    rw [if_pos hlen, hm, hnil]
    rfl
  · have hempty : decide (([] : Str).head? = some '*') = false := by decide
    simp only [hlen, if_false, markedLines,
      splitLines_unlines _ (listLines_no_newline d c hd), List.filter_append,
      List.filter_cons, hempty, Bool.false_eq_true, List.filter_nil, List.append_nil]
    rw [List.filter_map]
    congr 1
    apply List.filter_congr
    intro x _
    simp only [Function.comp, listLine_head]
    by_cases hx : x.Name = c.CurrentContext
    · simp [hx]
    · simp [hx]

/-- C16, amended: for every Config that can be loaded, the `ls` listing has one
line per context, in order (or the single line `No contexts found`), the line
of a context starts with the `*` marker exactly when the context's name is
`currentContext`, and so the marked lines are exactly the lines of the contexts
whose name is `currentContext`; their number is the number of those contexts,
at most one when the context names are pairwise distinct. -/
theorem runList_marks_current (d : Str) (c : Config) (hd : parseKubeConfig d = .ok c) :
    (runList (some d)).stdout =
      (if c.Contexts.length = 0 then "No contexts found\n".toList
       else unlines (c.Contexts.map (listLine c c.CurrentContext))) ∧
    (c.Contexts ≠ [] →
      splitLines (runList (some d)).stdout =
        c.Contexts.map (listLine c c.CurrentContext) ++ [[]]) ∧
    (∀ ctx ∈ c.Contexts,
      ((listLine c c.CurrentContext ctx).head? = some '*' ↔ ctx.Name = c.CurrentContext)) ∧
    markedLines (runList (some d)).stdout =
      (c.Contexts.filter (fun x => decide (x.Name = c.CurrentContext))).map
        (listLine c c.CurrentContext) ∧
    (markedLines (runList (some d)).stdout).length =
      c.Contexts.countP (fun x => decide (x.Name = c.CurrentContext)) ∧
    ((c.Contexts.map (fun x => x.Name)).Nodup →
      (markedLines (runList (some d)).stdout).length ≤ 1) := by
  have hout := runList_stdout d c hd
  have h := markedLines_count d c hd
  refine ⟨hout, ?_, ?_, markedLines_eq d c hd, h, ?_⟩
  · intro hne
    have hlen : ¬ c.Contexts.length = 0 := fun h0 => hne (List.length_eq_zero.1 h0)
    rw [hout, if_neg hlen, splitLines_unlines _ (listLines_no_newline d c hd)]
  · intro ctx _
    rw [listLine_head]
    by_cases hx : ctx.Name = c.CurrentContext
    · simp [hx]
    · simp [hx]
  · intro hnd
    rw [h]
    exact countP_name_le_one c.CurrentContext c.Contexts hnd

/-- Witness of C16 (amended): the listing of the document with contexts `dev`
and `prod`, current `dev`. -/
theorem runList_marks_current_witness :
    (runList (some devProdDoc)).stdout =
      (if devProdConfig.Contexts.length = 0 then "No contexts found\n".toList
       else unlines (devProdConfig.Contexts.map
         (listLine devProdConfig devProdConfig.CurrentContext))) ∧
    (devProdConfig.Contexts ≠ [] →
      splitLines (runList (some devProdDoc)).stdout =
        devProdConfig.Contexts.map (listLine devProdConfig devProdConfig.CurrentContext) ++
          [[]]) ∧
    (∀ ctx ∈ devProdConfig.Contexts,
      ((listLine devProdConfig devProdConfig.CurrentContext ctx).head? = some '*' ↔
        ctx.Name = devProdConfig.CurrentContext)) ∧
    markedLines (runList (some devProdDoc)).stdout =
      (devProdConfig.Contexts.filter
        (fun x => decide (x.Name = devProdConfig.CurrentContext))).map
        (listLine devProdConfig devProdConfig.CurrentContext) ∧
    (markedLines (runList (some devProdDoc)).stdout).length =
      devProdConfig.Contexts.countP (fun x => decide (x.Name = devProdConfig.CurrentContext)) ∧
    ((devProdConfig.Contexts.map (fun x => x.Name)).Nodup →
      (markedLines (runList (some devProdDoc)).stdout).length ≤ 1) :=
  runList_marks_current devProdDoc devProdConfig (by decide)

/-- The listing of the document with contexts `dev` and `prod`, current `dev`:
the marker is on the line of `dev`. -/
theorem runList_devProd :
    (runList (some devProdDoc)).stdout = "* dev\n  prod\n".toList ∧
    markedLines (runList (some devProdDoc)).stdout = ["* dev".toList] := by
  decide

/-! ## Decoding the encoder's output: clusters and users -/

/-- The outer loop on the header lines: `currentContext` is read and the
`contexts:` line is recorded. -/
theorem loop_header (c : Config) (rest : List Str) :
    ∃ j st, parseKubeConfig.loop 0 (headerLines c ++ rest) {} = parseKubeConfig.loop j rest st ∧
      st.config = { CurrentContext := TrimSpace c.CurrentContext } ∧ st.contextStart ≠ -1 := by
  have ea : ∀ (i : Nat) (v : Str) (rest : List Str) (st : ParseState),
      parseKubeConfig.loop i (("apiVersion: ".toList ++ v) :: rest) st =
        parseKubeConfig.loop (i + 1) rest st := by
    intro i v rest st
    exact loop_skip_key i [] "apiVersion:".toList (' ' :: v) rest st (by decide)
      (by decide) (by decide) (by decide) 1 (by decide) (by decide) (by decide) (by decide)
      (by decide)
  have ek : ∀ (i : Nat) (v : Str) (rest : List Str) (st : ParseState),
      parseKubeConfig.loop i (("kind: ".toList ++ v) :: rest) st =
        parseKubeConfig.loop (i + 1) rest st := by
    intro i v rest st
    exact loop_skip_key i [] "kind:".toList (' ' :: v) rest st (by decide)
      (by decide) (by decide) (by decide) 1 (by decide) (by decide) (by decide) (by decide)
      (by decide)
  have ep : ∀ (i : Nat) (rest : List Str) (st : ParseState),
      parseKubeConfig.loop i ("preferences: {}".toList :: rest) st =
        parseKubeConfig.loop (i + 1) rest st := by
    intro i rest st
    exact loop_skip i _ rest st (by decide) (by decide) (by decide)
  by_cases hp : c.Preferences.length > 0
  · simp only [headerLines, hp, if_true, List.cons_append, List.nil_append]
    rw [ea, ek, loop_currentContext, ep, loop_contextsKey]
    exact ⟨_, _, rfl, rfl, by simp⟩
  · simp only [headerLines, hp, if_false, List.cons_append, List.nil_append, List.append_nil]
    rw [ea, ek, loop_currentContext, loop_contextsKey]
    exact ⟨_, _, rfl, rfl, by simp⟩

/-- The outer loop on the lines of one cluster: a context with the cluster's
name is appended. -/
theorem loop_clusterLines (cl : Cluster) (R : List Str) (i : Nat) (st : ParseState)
    (hst : st.contextStart ≠ -1)
    (hR : ∀ ctx, parseKubeConfig.details R ctx = ctx) :
    ∃ j, parseKubeConfig.loop i (clusterLines cl ++ R) st =
      parseKubeConfig.loop j R
        { st with config := { st.config with
            Contexts := st.config.Contexts ++ [clusterAsContext cl] } } := by
  have d1 : ∀ (rest : List Str) (ctx : Context),
      parseKubeConfig.details ("    cluster:".toList :: rest) ctx =
        parseKubeConfig.details rest
          { ctx with Context := { ctx.Context with Cluster := [] } } := by
    intro rest ctx
    have h1 : HasPrefix (TrimSpace "    cluster:".toList) "- name:".toList = false := by decide
    have h2 : HasPrefix (TrimSpace "    cluster:".toList) "cluster:".toList = true := by decide
    have h3 : TrimSpace (TrimPrefix (TrimSpace "    cluster:".toList) "cluster:".toList) = [] := by
      decide
    rw [parseKubeConfig.details]
    simp only [h1, h2, h3, Bool.false_eq_true, if_false, if_true]
  have d2 : ∀ (v : Str) (rest : List Str) (ctx : Context),
      parseKubeConfig.details (("      server: ".toList ++ v) :: rest) ctx =
        parseKubeConfig.details rest ctx := by
    intro v rest ctx
    exact details_skip_key "      ".toList "server:".toList (' ' :: v) rest ctx (by decide)
      (by decide) (by decide) (by decide) 1 (by decide) (by decide) (by decide) (by decide)
      (by decide) (by decide)
  have e1 : ∀ (i : Nat) (rest : List Str) (st : ParseState),
      parseKubeConfig.loop i ("    cluster:".toList :: rest) st =
        parseKubeConfig.loop (i + 1) rest st := by
    intro i rest st
    exact loop_skip i _ rest st (by decide) (by decide) (by decide)
  have e2 : ∀ (i : Nat) (v : Str) (rest : List Str) (st : ParseState),
      parseKubeConfig.loop i (("      server: ".toList ++ v) :: rest) st =
        parseKubeConfig.loop (i + 1) rest st := by
    intro i v rest st
    exact loop_skip_key i "      ".toList "server:".toList (' ' :: v) rest st (by decide)
      (by decide) (by decide) (by decide) 1 (by decide) (by decide) (by decide) (by decide)
      (by decide)
  refine ⟨i + 1 + 1 + 1, ?_⟩
  simp only [clusterLines, List.cons_append, List.nil_append]
  rw [loop_name i _ _ st hst, d1, d2, hR, e1, e2]
  rfl

/-- The outer loop on the lines of one user: a context with the user's name
and the user `{}` is appended. -/
theorem loop_userLines (u : User) (R : List Str) (i : Nat) (st : ParseState)
    (hst : st.contextStart ≠ -1)
    (hR : ∀ ctx, parseKubeConfig.details R ctx = ctx) :
    ∃ j, parseKubeConfig.loop i (userLines u ++ R) st =
      parseKubeConfig.loop j R
        { st with config := { st.config with
            Contexts := st.config.Contexts ++ [userAsContext u] } } := by
  have d1 : ∀ (rest : List Str) (ctx : Context),
      parseKubeConfig.details ("    user: {}".toList :: rest) ctx =
        parseKubeConfig.details rest
          { ctx with Context := { ctx.Context with User := "{}".toList } } := by
    intro rest ctx
    have h1 : HasPrefix (TrimSpace "    user: {}".toList) "- name:".toList = false := by decide
    have h2 : HasPrefix (TrimSpace "    user: {}".toList) "cluster:".toList = false := by decide
    have h3 : HasPrefix (TrimSpace "    user: {}".toList) "user:".toList = true := by decide
    have h4 : TrimSpace (TrimPrefix (TrimSpace "    user: {}".toList) "user:".toList) =
        "{}".toList := by decide
    rw [parseKubeConfig.details]
    simp only [h1, h2, h3, h4, Bool.false_eq_true, if_false, if_true]
  have e1 : ∀ (i : Nat) (rest : List Str) (st : ParseState),
      parseKubeConfig.loop i ("    user: {}".toList :: rest) st =
        parseKubeConfig.loop (i + 1) rest st := by
    intro i rest st
    exact loop_skip i _ rest st (by decide) (by decide) (by decide)
  refine ⟨i + 1 + 1, ?_⟩
  simp only [userLines, List.cons_append, List.nil_append]
  rw [loop_name i _ _ st hst, d1, hR, e1]
  rfl

theorem details_stop_clusters (cs : List Cluster) (R : List Str)
    (hR : ∀ ctx, parseKubeConfig.details R ctx = ctx) (ctx : Context) :
    parseKubeConfig.details (clustersLines cs ++ R) ctx = ctx := by
  cases cs with
  | nil => exact hR ctx
  | cons c cs =>
    simp only [clustersLines, clusterLines, List.cons_append, details_stop_name]

theorem details_stop_users (us : List User) (R : List Str)
    (hR : ∀ ctx, parseKubeConfig.details R ctx = ctx) (ctx : Context) :
    parseKubeConfig.details (usersLines us ++ R) ctx = ctx := by
  cases us with
  | nil => exact hR ctx
  | cons u us =>
    simp only [usersLines, userLines, List.cons_append, details_stop_name]

theorem loop_clustersLines (cs : List Cluster) (R : List Str) (i : Nat) (st : ParseState)
    (hst : st.contextStart ≠ -1)
    (hR : ∀ ctx, parseKubeConfig.details R ctx = ctx) :
    ∃ j, parseKubeConfig.loop i (clustersLines cs ++ R) st =
      parseKubeConfig.loop j R
        { st with config := { st.config with
            Contexts := st.config.Contexts ++ cs.map clusterAsContext } } := by
  induction cs generalizing i st with
  | nil => exact ⟨i, by simp [clustersLines]⟩
  | cons c cs ih =>
    obtain ⟨j, hj⟩ := loop_clusterLines c (clustersLines cs ++ R) i st hst
      (details_stop_clusters cs R hR)
    obtain ⟨j2, hj2⟩ := ih j
      { st with config := { st.config with
          Contexts := st.config.Contexts ++ [clusterAsContext c] } } hst
    refine ⟨j2, ?_⟩
    rw [clustersLines, List.append_assoc, hj, hj2]
    simp

theorem loop_usersLines (us : List User) (R : List Str) (i : Nat) (st : ParseState)
    (hst : st.contextStart ≠ -1)
    (hR : ∀ ctx, parseKubeConfig.details R ctx = ctx) :
    ∃ j, parseKubeConfig.loop i (usersLines us ++ R) st =
      parseKubeConfig.loop j R
        { st with config := { st.config with
            Contexts := st.config.Contexts ++ us.map userAsContext } } := by
  induction us generalizing i st with
  | nil => exact ⟨i, by simp [usersLines]⟩
  | cons u us ih =>
    obtain ⟨j, hj⟩ := loop_userLines u (usersLines us ++ R) i st hst
      (details_stop_users us R hR)
    obtain ⟨j2, hj2⟩ := ih j
      { st with config := { st.config with
          Contexts := st.config.Contexts ++ [userAsContext u] } } hst
    refine ⟨j2, ?_⟩
    rw [usersLines, List.append_assoc, hj, hj2]
    simp

theorem details_end (ctx : Context) : parseKubeConfig.details [[]] ctx = ctx := by
  have h1 : HasPrefix (TrimSpace []) "- name:".toList = false := by decide
  have h2 : HasPrefix (TrimSpace []) "cluster:".toList = false := by decide
  have h3 : HasPrefix (TrimSpace []) "user:".toList = false := by decide
  have h4 : HasPrefix (TrimSpace []) "namespace:".toList = false := by decide
  rw [parseKubeConfig.details]
  simp only [h1, h2, h3, h4, Bool.false_eq_true, if_false, parseKubeConfig.details]

theorem loop_end (i : Nat) (st : ParseState) : parseKubeConfig.loop i [[]] st = st := by
  rw [loop_skip i [] [] st (by decide) (by decide) (by decide), parseKubeConfig.loop]

/-- The decoder on the `users:` block followed by the last, empty line: the
inner loop stops there, and the outer loop appends one context per user. -/
theorem loop_usersBlock (us : List User) :
    (∀ ctx, parseKubeConfig.details
        ((if us.length > 0 then "users:".toList :: usersLines us else []) ++ [[]]) ctx = ctx) ∧
    ∀ (i : Nat) (st : ParseState), st.contextStart ≠ -1 →
      parseKubeConfig.loop i
          ((if us.length > 0 then "users:".toList :: usersLines us else []) ++ [[]]) st =
        { st with config := { st.config with
            Contexts := st.config.Contexts ++ us.map userAsContext } } := by
  have dk : ∀ (rest : List Str) (ctx : Context),
      parseKubeConfig.details ("users:".toList :: rest) ctx =
        parseKubeConfig.details rest ctx := by
    intro rest ctx
    have h1 : HasPrefix (TrimSpace "users:".toList) "- name:".toList = false := by decide
    have h2 : HasPrefix (TrimSpace "users:".toList) "cluster:".toList = false := by decide
    have h3 : HasPrefix (TrimSpace "users:".toList) "user:".toList = false := by decide
    have h4 : HasPrefix (TrimSpace "users:".toList) "namespace:".toList = false := by decide
    rw [parseKubeConfig.details]
    simp only [h1, h2, h3, h4, Bool.false_eq_true, if_false]
  by_cases hu : us.length > 0
  · simp only [hu, if_true, List.cons_append]
    constructor
    · intro ctx
      rw [dk, details_stop_users us [[]] details_end]
    · intro i st hst
      rw [loop_skip i _ _ st (by decide) (by decide) (by decide)]
      obtain ⟨j, hj⟩ := loop_usersLines us [[]] (i + 1) st hst details_end
      rw [hj, loop_end]
  · have hnil : us = [] := by
      cases us with
      | nil => rfl
      | cons u t => simp at hu
    subst hnil
    simp only [List.length_nil, gt_iff_lt, Nat.lt_irrefl, if_false, List.nil_append,
      List.map_nil, List.append_nil]
    exact ⟨details_end, fun i st _ => loop_end i st⟩

/-- The decoder on the lines after the contexts, the last, empty line
included: the inner loop stops there, and the outer loop appends one context
per cluster and one per user. -/
theorem loop_trailer (c : Config) :
    (∀ ctx, parseKubeConfig.details (trailerLines c ++ [[]]) ctx = ctx) ∧
    ∀ (i : Nat) (st : ParseState), st.contextStart ≠ -1 →
      parseKubeConfig.loop i (trailerLines c ++ [[]]) st =
        { st with config := { st.config with
            Contexts := st.config.Contexts ++
              (c.Clusters.map clusterAsContext ++ c.Users.map userAsContext) } } := by
  obtain ⟨hU, lU⟩ := loop_usersBlock c.Users
  have dk : ∀ (rest : List Str) (ctx : Context),
      parseKubeConfig.details ("clusters:".toList :: rest) ctx =
        parseKubeConfig.details rest ctx := by
    intro rest ctx
    have h1 : HasPrefix (TrimSpace "clusters:".toList) "- name:".toList = false := by decide
    have h2 : HasPrefix (TrimSpace "clusters:".toList) "cluster:".toList = false := by decide
    have h3 : HasPrefix (TrimSpace "clusters:".toList) "user:".toList = false := by decide
    have h4 : HasPrefix (TrimSpace "clusters:".toList) "namespace:".toList = false := by
      decide
    rw [parseKubeConfig.details]
    simp only [h1, h2, h3, h4, Bool.false_eq_true, if_false]
  by_cases hc : c.Clusters.length > 0
  · simp only [trailerLines, hc, if_true, List.cons_append, List.append_assoc]
    constructor
    · intro ctx
      rw [dk, details_stop_clusters c.Clusters _ hU]
    · intro i st hst
      rw [loop_skip i _ _ st (by decide) (by decide) (by decide)]
      obtain ⟨j, hj⟩ := loop_clustersLines c.Clusters _ (i + 1) st hst hU
      have hl := lU j
        { st with config := { st.config with
            Contexts := st.config.Contexts ++ c.Clusters.map clusterAsContext } } hst
      rw [hj, hl]
      simp
  · have hnil : c.Clusters = [] := by
      cases hcs : c.Clusters with
      | nil => rfl
      | cons u t => rw [hcs] at hc; simp at hc
    simp only [trailerLines, hc, if_false, List.nil_append, hnil, List.map_nil]
    exact ⟨hU, lU⟩

/-- No line the encoder writes holds a newline when its strings hold none. -/
theorem lines_no_newline (c : Config) (h : NoNewlines c) :
    ∀ l ∈ headerLines c ++ contextsLines c.Contexts ++ trailerLines c, '\n' ∉ l := by
  obtain ⟨hv, hk, hcc, hcs, hcl, hus⟩ := h
  have hctx : ∀ cs : List Context,
      (∀ x ∈ cs, '\n' ∉ x.Name ∧ '\n' ∉ x.Context.Cluster ∧
        '\n' ∉ x.Context.User ∧ '\n' ∉ x.Context.Namespace) →
      ∀ l ∈ contextsLines cs, '\n' ∉ l := by
    intro cs
    induction cs with
    | nil => intro _ l hl; simp [contextsLines] at hl
    | cons x xs ih =>
      intro hx l hl
      obtain ⟨h1, h2, h3, h4⟩ := hx x (by simp)
      have hxs := ih (fun y hy => hx y (by simp [hy]))
      rw [contextsLines, List.mem_append] at hl
      rcases hl with hl | hl
      · by_cases hns : x.Context.Namespace = []
        · simp only [contextLines, hns, ne_eq, not_true_eq_false, if_false, List.append_nil,
            List.mem_cons, List.mem_singleton, List.not_mem_nil, or_false] at hl
          rcases hl with hl | hl | hl | hl <;> subst hl <;> simp [h1, h2, h3]
        · simp only [contextLines, hns, ne_eq, not_false_eq_true, if_true, List.cons_append,
            List.nil_append, List.mem_cons, List.mem_singleton, List.not_mem_nil,
            or_false] at hl
          rcases hl with hl | hl | hl | hl | hl <;> subst hl <;> simp [h1, h2, h3, h4]
      · exact hxs l hl
  have hclu : ∀ cs : List Cluster,
      (∀ x ∈ cs, '\n' ∉ x.Name ∧ '\n' ∉ x.Cluster.Server) →
      ∀ l ∈ clustersLines cs, '\n' ∉ l := by
    intro cs
    induction cs with
    | nil => intro _ l hl; simp [clustersLines] at hl
    | cons x xs ih =>
      intro hx l hl
      obtain ⟨h1, h2⟩ := hx x (by simp)
      have hxs := ih (fun y hy => hx y (by simp [hy]))
      rw [clustersLines, List.mem_append] at hl
      rcases hl with hl | hl
      · simp only [clusterLines, List.mem_cons, List.mem_singleton, List.not_mem_nil,
          or_false] at hl
        rcases hl with hl | hl | hl <;> subst hl <;> simp [h1, h2]
      · exact hxs l hl
  have husr : ∀ us : List User, (∀ x ∈ us, '\n' ∉ x.Name) →
      ∀ l ∈ usersLines us, '\n' ∉ l := by
    intro us
    induction us with
    | nil => intro _ l hl; simp [usersLines] at hl
    | cons x xs ih =>
      intro hx l hl
      have h1 := hx x (by simp)
      have hxs := ih (fun y hy => hx y (by simp [hy]))
      rw [usersLines, List.mem_append] at hl
      rcases hl with hl | hl
      · simp only [userLines, List.mem_cons, List.mem_singleton, List.not_mem_nil,
          or_false] at hl
        rcases hl with hl | hl <;> subst hl <;> simp [h1]
      · exact hxs l hl
  intro l hl
  rw [List.mem_append, List.mem_append] at hl
  rcases hl with (hl | hl) | hl
  · by_cases hp : c.Preferences.length > 0
    · simp only [headerLines, hp, if_true, List.cons_append, List.nil_append,
        List.mem_cons, List.mem_singleton, List.not_mem_nil, or_false] at hl
      rcases hl with hl | hl | hl | hl | hl <;> subst hl <;> simp [hv, hk, hcc]
    · simp only [headerLines, hp, if_false, List.cons_append, List.nil_append,
        List.append_nil, List.mem_cons, List.mem_singleton, List.not_mem_nil,
        or_false] at hl
      rcases hl with hl | hl | hl | hl <;> subst hl <;> simp [hv, hk, hcc]
  · exact hctx c.Contexts hcs l hl
  · rw [trailerLines, List.mem_append] at hl
    rcases hl with hl | hl
    · by_cases hc : c.Clusters.length > 0
      · simp only [hc, if_true, List.mem_cons] at hl
        rcases hl with hl | hl
        · subst hl; decide
        · exact hclu c.Clusters hcl l hl
      · simp only [hc, if_false, List.not_mem_nil] at hl
    · by_cases hu : c.Users.length > 0
      · simp only [hu, if_true, List.mem_cons] at hl
        rcases hl with hl | hl
        · subst hl; decide
        · exact husr c.Users hus l hl
      · simp only [hu, if_false, List.not_mem_nil] at hl

/-- Decoding the encoder's output, for any Config without a newline in the
strings that are written: the contexts come back trimmed, followed by one
context per cluster and one per user. -/
theorem parse_serialize_all (c : Config) (h : NoNewlines c) :
    ∃ out, serializeKubeConfig c = .ok out ∧
      parseKubeConfig out = .ok
        { APIVersion := "v1".toList, Kind := "Config".toList,
          CurrentContext := TrimSpace c.CurrentContext,
          Contexts := c.Contexts.map trimContext ++
            (c.Clusters.map clusterAsContext ++ c.Users.map userAsContext) } := by
  refine ⟨_, serialize_eq c, ?_⟩
  obtain ⟨hT, lT⟩ := loop_trailer c
  simp only [parseKubeConfig]
  rw [splitLines_unlines _ (lines_no_newline c h)]
  simp only [List.append_assoc]
  congr 1
  obtain ⟨j, st, hj, hcfg, hst⟩ :=
    loop_header c (contextsLines c.Contexts ++ (trailerLines c ++ [[]]))
  obtain ⟨j2, hj2⟩ := loop_contextsLines c.Contexts (trailerLines c ++ [[]]) j st hst hT
  have hl := lT j2
    { st with config := { st.config with
        Contexts := st.config.Contexts ++ c.Contexts.map trimContext } } hst
  rw [hj, hj2, hl, hcfg]
  simp [parseKubeConfig.defaults]

/-- C20: for every Config without a newline in the strings the encoder writes,
decoding the encoder's output gives exactly `len(contexts) + len(clusters) +
len(users)` contexts: the contexts, then one context per cluster, then one per
user; so the context list comes back unchanged only when there are no clusters
and no users. -/
theorem encode_decode_counts (c : Config) (h : NoNewlines c) :
    ∃ out c2, serializeKubeConfig c = .ok out ∧ parseKubeConfig out = .ok c2 ∧
      c2.Contexts = c.Contexts.map trimContext ++
        (c.Clusters.map clusterAsContext ++ c.Users.map userAsContext) ∧
      c2.Contexts.length = c.Contexts.length + c.Clusters.length + c.Users.length ∧
      (c2.Contexts = c.Contexts → c.Clusters = [] ∧ c.Users = []) := by
  obtain ⟨out, h1, h2⟩ := parse_serialize_all c h
  refine ⟨out, _, h1, h2, rfl, ?_, ?_⟩
  · simp only [List.length_append, List.length_map]
    omega
  · intro heq
    have hlen := congrArg List.length heq
    simp only [List.length_append, List.length_map] at hlen
    constructor
    · apply List.length_eq_zero.1; omega
    · apply List.length_eq_zero.1; omega

/-- Witness of C20: `secretConfigA`, with one context, one cluster and one
user, comes back with three contexts. -/
theorem encode_decode_counts_witness :
    ∃ out c2, serializeKubeConfig secretConfigA = .ok out ∧ parseKubeConfig out = .ok c2 ∧
      c2.Contexts = secretConfigA.Contexts.map trimContext ++
        (secretConfigA.Clusters.map clusterAsContext ++
          secretConfigA.Users.map userAsContext) ∧
      c2.Contexts.length =
        secretConfigA.Contexts.length + secretConfigA.Clusters.length +
          secretConfigA.Users.length ∧
      (c2.Contexts = secretConfigA.Contexts →
        secretConfigA.Clusters = [] ∧ secretConfigA.Users = []) :=
  encode_decode_counts secretConfigA (by decide)

end Kubeconfig
